import Mathlib

/-!
Verification development for the SKG-IF SHACL extractor
(`src/main.py` of `skg-if/shacl-extractor`).

The Python source is shallowly embedded: graphs are lists of triples plus a
prefix-binding table (the state of the rdflib store), Python dictionaries are
association lists with last-write-wins lookup, Python sets are lists queried
only through membership, and the two regular expressions of the source
(`PROPERTY_PATTERN` and `PREFIX_PATTERN`) are hand-rolled deterministic
matchers that are extensionally equal to Python `re` on these patterns
(each quantifier in the patterns is followed by a character it can never
match, so backtracking can never change the outcome).  Fallible Python code
(`raise ValueError`, tuple-unpacking failures, `sorted(xs)[0]` on an empty
list) is embedded in `Except`.
-/

namespace ShaclExtractor

/-- Python `\s` / `str.strip` whitespace, restricted to the ASCII range
(the inputs of interest are ASCII). -/
def pyWsChar (c : Char) : Bool :=
  c = ' ' || c = '\t' || c = '\n' || c = '\r' || c = '\x0b' || c = '\x0c'

/-- Python regex `\w` (ASCII range): letters, digits, underscore. -/
def wordChar (c : Char) : Bool :=
  c.isAlphanum || c = '_'

/-- The character class `[\w:-]` used for the name and target tokens of
`PROPERTY_PATTERN`. -/
def tokChar (c : Char) : Bool :=
  wordChar c || c = ':' || c = '-'

def digitChar (c : Char) : Bool := c.isDigit

/-- Python `str.strip()` on a character list. -/
def pyStripL (cs : List Char) : List Char :=
  ((cs.dropWhile pyWsChar).reverse.dropWhile pyWsChar).reverse

/-- Python `str.strip()`. -/
def pyStrip (s : String) : String :=
  String.mk (pyStripL s.toList)

/-- Python `str.split(':')` (split on every colon, keeping empty parts). -/
def splitColonL : List Char → List (List Char)
  | [] => [[]]
  | c :: rest =>
    if c = ':' then [] :: splitColonL rest
    else
      match splitColonL rest with
      | [] => [[c]]
      | s :: ss => (c :: s) :: ss

def splitColon (s : String) : List String :=
  (splitColonL s.toList).map String.mk

/-- Python `sub in s` (substring containment) on character lists. -/
def containsSubL (pat : List Char) : List Char → Bool
  | [] => pat.isPrefixOf []
  | c :: rest => pat.isPrefixOf (c :: rest) || containsSubL pat rest

def containsSub (pat s : String) : Bool :=
  containsSubL pat.toList s.toList

/-- The marker phrase from `main.py` (`"The properties that can be used"`). -/
def markerPhrase : String := "The properties that can be used"

/-- `re.split(r'\n[*-] ', s)`: cut the string at every occurrence of a
newline followed by `*` or `-` followed by a space, dropping the separator. -/
def splitBullets : List Char → List (List Char)
  | '\n' :: '*' :: ' ' :: rest => [] :: splitBullets rest
  | '\n' :: '-' :: ' ' :: rest => [] :: splitBullets rest
  | c :: rest =>
    match splitBullets rest with
    | [] => [[c]]
    | s :: ss => (c :: s) :: ss
  | [] => [[]]

/-- Strip an expected literal character sequence from the front of the
input, returning the remainder (a match of a literal regex piece). -/
def stripLit : List Char → List Char → Option (List Char)
  | [], cs => some cs
  | _ :: _, [] => none
  | l :: ls, c :: cs => if c = l then stripLit ls cs else none

/-- The groups of a `PROPERTY_PATTERN` match, mirroring
`match.groups()` = `(prop_name, card_min, range_sep, card_max, target)`
(`hasSep` stands for `range_sep is not None`). -/
structure PropGroups where
  name : String
  cmin : String
  hasSep : Bool
  cmax : Option String
  target : String
deriving DecidableEq, Repr

/-- The regex piece `(\d+|[*N])`: a maximal nonempty digit run, or a single
`*` or `N`.  (Deterministic: in `PROPERTY_PATTERN` every use is followed by
a character that is neither a digit nor `*`/`N`, so Python's backtracking
can never pick a different alternative or a shorter run.) -/
def parseCard (cs : List Char) : Option (String × List Char) :=
  let d := cs.takeWhile digitChar
  if d.isEmpty then
    match cs with
    | '*' :: r => some ("*", r)
    | 'N' :: r => some ("N", r)
    | _ => none
  else some (String.mk d, cs.dropWhile digitChar)

/-- The regex piece `(\.\.)?`: consume a literal `..` when it is present
(returning the flag that became `range_sep`). -/
def sepSplit (r2 : List Char) : Bool × List Char :=
  match r2 with
  | '.' :: '.' :: r => (true, r)
  | _ => (false, r2)

/-- The regex piece `(\d+|[*N])?` (group 4): an optional cardinality. -/
def maxSplit (r3 : List Char) : Option String × List Char :=
  match parseCard r3 with
  | some (cm, r) => (some cm, r)
  | none => (none, r3)

/-- `re.match(PROPERTY_PATTERN, s)` for
`PROPERTY_PATTERN = r'([\w:-]+) -\[(\d+|[*N])(\.\.)?(\d+|[*N])?]->\s+([\w:-]+)'`.

`re.match` anchors at the start of the string only: a match may be followed
by arbitrary unconsumed text.  Every greedy piece of the pattern is followed
by a literal character outside its character class, so the pattern is
deterministic and this function agrees with Python `re` (groups included). -/
def matchProp (cs : List Char) : Option PropGroups :=
  let nm := cs.takeWhile tokChar
  if nm.isEmpty then none
  else
    match stripLit [' ', '-', '['] (cs.dropWhile tokChar) with
    | none => none
    | some r1 =>
      match parseCard r1 with
      | none => none
      | some (cmin, r2) =>
        let sr := sepSplit r2
        let mr := maxSplit sr.2
        match stripLit [']', '-', '>'] mr.2 with
        | none => none
        | some r5 =>
          let ws := r5.takeWhile pyWsChar
          if ws.isEmpty then none
          else
            let tg := (r5.dropWhile pyWsChar).takeWhile tokChar
            if tg.isEmpty then none
            else some ⟨String.mk nm, cmin, sr.1, mr.1, String.mk tg⟩

/-- `card not in ['*', 'N']`: the token is a numeric cardinality bound. -/
def isNumTok (s : String) : Bool :=
  s ≠ "*" && s ≠ "N"

/-- Python `int()` on a digit string. -/
def natOfTok (s : String) : Nat :=
  s.toList.foldl (fun acc c => 10 * acc + (c.toNat - '0'.toNat)) 0

/-- An RDF term.  `bnode` holds a blank node coming from an input graph
(identified by its rdflib id); `cnode n` is the `n`-th blank node minted by
the extractor itself via `BNode()` (fresh ids, disjoint from parsed ones);
`intLit` is an `xsd:integer`-typed literal (used only for cardinalities). -/
inductive Term where
  | uri (u : String)
  | lit (s : String)
  | bnode (id : String)
  | cnode (n : Nat)
  | intLit (n : Nat)
deriving DecidableEq, Repr

structure Triple where
  s : Term
  p : Term
  o : Term
deriving DecidableEq, Repr

/-- An rdflib `Graph`: its triples (in store iteration order) and the final
state of its store's prefix-binding table (first match wins on lookup;
rdflib's `bind` never replaces an existing binding of the same prefix to a
different namespace, so the earliest binding of a prefix is authoritative). -/
structure OntGraph where
  triples : List Triple
  nsBind : List (String × String)
deriving DecidableEq, Repr

/-- Python `str()` of an rdflib term. -/
def termStr : Term → String
  | .uri u => u
  | .lit s => s
  | .bnode id => id
  | .cnode n => "n" ++ toString n
  | .intLit n => toString n

def rdfTypeT : Term := .uri "http://www.w3.org/1999/02/22-rdf-syntax-ns#type"

def owlClassT : Term := .uri "http://www.w3.org/2002/07/owl#Class"

def owlOntologyT : Term := .uri "http://www.w3.org/2002/07/owl#Ontology"

def dcDescriptionT : Term := .uri "http://purl.org/dc/elements/1.1/description"

def shNS : String := "http://www.w3.org/ns/shacl#"

def shPropertyT : Term := .uri (shNS ++ "property")

def shPathT : Term := .uri (shNS ++ "path")

def shMinCountT : Term := .uri (shNS ++ "minCount")

def shMaxCountT : Term := .uri (shNS ++ "maxCount")

def shNodeKindT : Term := .uri (shNS ++ "nodeKind")

def shDatatypeT : Term := .uri (shNS ++ "datatype")

def shNodeT : Term := .uri (shNS ++ "node")

def shNodeShapeT : Term := .uri (shNS ++ "NodeShape")

def shTargetClassT : Term := .uri (shNS ++ "targetClass")

def shLiteralT : Term := .uri (shNS ++ "Literal")

def shBlankNodeOrIRIT : Term := .uri (shNS ++ "BlankNodeOrIRI")

def xsdNS : String := "http://www.w3.org/2001/XMLSchema#"

/-- `SHAPES_BASE` from `main.py`. -/
def SHAPES_BASE : String := "https://w3id.org/skg-if/shapes/"

/-- `set(ROOT_CLASSES.values())` from `main.py` (membership is the only
operation performed on it). -/
def rootClassesFixed : List String :=
  ["http://xmlns.com/foaf/0.1/Agent",
   "http://www.w3.org/ns/dcat#DataService",
   "http://purl.org/cerif/frapo/Grant",
   "http://purl.org/spar/fabio/Work",
   "http://purl.org/spar/fabio/SubjectTerm",
   "http://purl.org/spar/fabio/ExpressionCollection"]

/-- Remove duplicates from a list, keeping the first occurrence of each
element (the order in which an rdflib generator with `unique=True` yields). -/
def dedupFirstAux {α : Type} [DecidableEq α] (seen : List α) : List α → List α
  | [] => []
  | x :: xs =>
    if seen.contains x then dedupFirstAux seen xs
    else x :: dedupFirstAux (x :: seen) xs

def dedupFirst {α : Type} [DecidableEq α] (l : List α) : List α :=
  dedupFirstAux [] l

/-- `g.subjects(RDF.type, ty, unique=True)` in iteration order. -/
def subjectsOfType (g : OntGraph) (ty : Term) : List Term :=
  dedupFirst ((g.triples.filter (fun t => t.p == rdfTypeT && t.o == ty)).map (fun t => t.s))

/-- `g.value(s, p)`: the object of the first matching triple. -/
def graphValue (g : OntGraph) (s p : Term) : Option Term :=
  (g.triples.find? (fun t => t.s == s && t.p == p)).map (fun t => t.o)

/-- Lookup in a Python dict represented as the list of its assignments in
execution order: the last assignment to a key wins. -/
def lookupLast (l : List (String × String)) (k : String) : Option String :=
  (l.reverse.find? (fun kv => kv.1 == k)).map (fun kv => kv.2)

/-- The portion of `cs` after the last occurrence of `sep` (`none` when
`sep` does not occur). -/
def afterLast (sep : Char) (cs : List Char) : Option (List Char) :=
  if cs.contains sep then some ((cs.reverse.takeWhile (fun c => !(c == sep))).reverse)
  else none

/-- `get_class_local_name` from `main.py`: `uri.split('#')[-1]` when a `#`
is present, else `uri.split('/')[-1]`. -/
def getClassLocalName (u : String) : String :=
  match afterLast '#' u.toList with
  | some l => String.mk l
  | none =>
    match afterLast '/' u.toList with
    | some l => String.mk l
    | none => u

/-- Split a URI at `uri.rindex('#') + 1` when it has a `#`, else at
`uri.rindex('/') + 1`, into (namespace stem, local name); `none` when the
URI has neither separator (the `continue` case of `_build_uri_namespace_map`). -/
def splitNsLoc (cs : List Char) : Option (List Char × List Char) :=
  if cs.contains '#' then
    let loc := (cs.reverse.takeWhile (fun c => !(c == '#'))).reverse
    some (cs.take (cs.length - loc.length), loc)
  else if cs.contains '/' then
    let loc := (cs.reverse.takeWhile (fun c => !(c == '/'))).reverse
    some (cs.take (cs.length - loc.length), loc)
  else none

/-- The `(local, namespace)` entries a single term contributes to the
observed-URI-suffix map (`result[local] = ns` inside the triple loop). -/
def uriNsEntries (t : Term) : List (String × String) :=
  match t with
  | .uri u =>
    match splitNsLoc u.toList with
    | some (ns, loc) =>
      if loc.isEmpty || ns.isEmpty then [] else [(String.mk loc, String.mk ns)]
    | none => []
  | _ => []

/-- `_build_uri_namespace_map`: scan every triple's subject, predicate and
object; later entries overwrite earlier ones (dict assignment), which
`lookupLast` realises. -/
def buildUriNsMap (g : OntGraph) : List (String × String) :=
  g.triples.foldl (fun acc t => acc ++ uriNsEntries t.s ++ uriNsEntries t.p ++ uriNsEntries t.o) []

/-- A match of `PREFIX_PATTERN = r'@prefix\s+(\w+):\s+<([^>]+)>\s*\.'`
anchored at the start of the input, returning the two groups and the
remainder after the match.  Deterministic for the same reason as
`matchProp`. -/
def matchPfxAt (cs : List Char) : Option ((String × String) × List Char) :=
  match stripLit "@prefix".toList cs with
  | none => none
  | some r1 =>
    let w1 := r1.takeWhile pyWsChar
    if w1.isEmpty then none
    else
      let r2 := r1.dropWhile pyWsChar
      let nm := r2.takeWhile wordChar
      if nm.isEmpty then none
      else
        match r2.dropWhile wordChar with
        | ':' :: r3 =>
          let w2 := r3.takeWhile pyWsChar
          if w2.isEmpty then none
          else
            match r3.dropWhile pyWsChar with
            | '<' :: r4 =>
              let uriPart := r4.takeWhile (fun c => !(c == '>'))
              if uriPart.isEmpty then none
              else
                match r4.dropWhile (fun c => !(c == '>')) with
                | '>' :: r5 =>
                  match r5.dropWhile pyWsChar with
                  | '.' :: r6 => some ((String.mk nm, String.mk uriPart), r6)
                  | _ => none
                | _ => none
            | _ => none
        | _ => none

/-- `re.finditer(PREFIX_PATTERN, s)`: scan left to right for
non-overlapping matches, resuming after each match.  `fuel` is an upper
bound on the number of steps (`cs.length` suffices: every step consumes at
least one character). -/
def findPfxDecls : Nat → List Char → List (String × String)
  | 0, _ => []
  | _, [] => []
  | fuel + 1, c :: rest =>
    match matchPfxAt (c :: rest) with
    | some (kv, r) => kv :: findPfxDecls fuel r
    | none => findPfxDecls fuel rest

/-- `_extract_prefixes_from_literals`: collect `@prefix` declarations from
every literal object in the graph (dict semantics via `lookupLast`). -/
def extractPfxFromLits (g : OntGraph) : List (String × String) :=
  g.triples.foldl
    (fun acc t =>
      match t.o with
      | .lit s => acc ++ findPfxDecls s.toList.length s.toList
      | _ => acc) []

/-- `g.store.namespace(prefix)`: the namespace the store binds to a prefix. -/
def storeNamespace (g : OntGraph) (p : String) : Option String :=
  (g.nsBind.find? (fun kv => kv.1 == p)).map (fun kv => kv.2)

/-- `_resolve_namespace`: declared prefix bindings (skipped when falsy,
i.e. bound to the empty string), then the observed-URI-suffix map keyed by
the local name, then prefixes declared inside literals. -/
def resolveNamespace (pfxTok localName : String) (g : OntGraph)
    (uriNs litPfx : List (String × String)) : Option String :=
  match storeNamespace g pfxTok with
  | some ns =>
    if ns = "" then
      match lookupLast uriNs localName with
      | some v => some v
      | none => lookupLast litPfx pfxTok
    else some ns
  | none =>
    match lookupLast uriNs localName with
    | some v => some v
    | none => lookupLast litPfx pfxTok

/-- The list of property segments of a description:
`[p for p in re.split(r'\n[*-] ', desc) if p.strip()][1:]` — blank
segments are discarded FIRST, and then the first surviving segment is
dropped (elements are kept untrimmed; callers strip them at use). -/
def segmentsOf (s : String) : List String :=
  (((splitBullets s.toList).map String.mk).filter (fun p => !(pyStrip p == ""))).drop 1

/-- The described classes of a graph with their description strings:
subjects typed `owl:Class` (unique) whose `dc:description` is truthy and
contains the marker phrase. -/
def descPairs (g : OntGraph) : List (Term × String) :=
  (subjectsOfType g owlClassT).filterMap (fun cls =>
    match graphValue g cls dcDescriptionT with
    | none => none
    | some d =>
      if !(termStr d == "") && containsSub markerPhrase (termStr d) then some (cls, termStr d)
      else none)

deriving instance DecidableEq for Except

/-- The errors the compilation core can raise: the three `ValueError`s of
`_process_property`, the `ValueError` of tuple-unpacking `str.split(':')`
into two variables when it yields a different number of parts, the
`IndexError` of `sorted(xs)[0]` on an empty list, and the `StopIteration`
of `next(iter(...))` on an empty module dict. -/
inductive PErr where
  | invalidFormat (classUri propText : String)
  | unknownPfx (pfxName classUri propText : String)
  | cannotResolve (tokName classUri propText : String)
  | unpackErr (nParts : Nat)
  | indexErr
  | stopIteration
deriving DecidableEq, Repr

/-- The target of one property segment during root detection
(`_detect_root_classes` body): `none` for non-matching segments,
`rdfs:`/`xsd:`-prefixed targets and unresolvable targets; `some uri` for a
resolved target.  A target with more than one colon crashes the unpacking
at line 122. -/
def segRefTarget (g : OntGraph) (uriNs litPfx : List (String × String))
    (seg : String) : Except PErr (Option String) :=
  match matchProp (pyStrip seg).toList with
  | none => .ok none
  | some gps =>
    if gps.target.toList.contains ':' then
      match splitColon gps.target with
      | [tp, tl] =>
        if tp = "rdfs" || tp = "xsd" then .ok none
        else
          match resolveNamespace tp tl g uriNs litPfx with
          | some tns => .ok (some (tns ++ tl))
          | none => .ok none
      | parts => .error (.unpackErr parts.length)
    else
      match lookupLast uriNs gps.target with
      | some tns => .ok (some (tns ++ gps.target))
      | none => .ok none

def refTargets (g : OntGraph) (uriNs litPfx : List (String × String)) :
    List String → Except PErr (List String)
  | [] => .ok []
  | s :: rest =>
    match segRefTarget g uriNs litPfx s with
    | .error e => .error e
    | .ok t =>
      match refTargets g uriNs litPfx rest with
      | .error e => .error e
      | .ok r => .ok (t.toList ++ r)

/-- All property segments of all described classes of a graph, in
iteration order. -/
def allSegs (g : OntGraph) : List String :=
  (descPairs g).flatMap (fun pr => segmentsOf pr.2)

/-- `_detect_root_classes`: the described classes minus every URI that some
described class's property list references as a resolvable class target. -/
def detectRootClasses (g : OntGraph) (described : List String) :
    Except PErr (List String) :=
  match refTargets g (buildUriNsMap g) (extractPfxFromLits g) (allSegs g) with
  | .error e => .error e
  | .ok refs => .ok (described.filter (fun c => !(refs.contains c)))

/-- Append a module name to a class's entry of `class_to_modules`,
creating the entry if absent (dict-of-lists update). -/
def c2mInsert (m : List (String × List String)) (k v : String) :
    List (String × List String) :=
  match m with
  | [] => [(k, [v])]
  | (k', vs) :: rest =>
    if k' = k then (k', vs ++ [v]) :: rest else (k', vs) :: c2mInsert rest k v

/-- `_build_class_to_modules`. -/
def buildClassToModules (modules : List (String × OntGraph)) :
    List (String × List String) :=
  modules.foldl
    (fun acc m => (descPairs m.2).foldl (fun acc2 pr => c2mInsert acc2 (termStr pr.1) m.1) acc)
    []

def lookupC2M (c2m : List (String × List String)) (k : String) :
    Option (List String) :=
  (c2m.find? (fun kv => kv.1 == k)).map (fun kv => kv.2)

/-- Lexicographic (code point) order on strings, as Python compares them. -/
def lexLe : List Char → List Char → Bool
  | [], _ => true
  | _ :: _, [] => false
  | a :: as, b :: bs => if a = b then lexLe as bs else decide (a < b)

def strLe (a b : String) : Bool := lexLe a.toList b.toList

def insSorted (x : String) : List String → List String
  | [] => [x]
  | y :: ys => if strLe x y then x :: y :: ys else y :: insSorted x ys

/-- Python `sorted` on strings (insertion sort; stability is irrelevant
because equal strings are identical). -/
def sortStr : List String → List String
  | [] => []
  | x :: xs => insSorted x (sortStr xs)

/-- The cardinality triples of one property constraint (`main.py`
lines 247-255): exact form (no range separator, numeric single bound)
emits `minCount = maxCount = n`; otherwise each numeric bound emits its
count triple and wildcard (`*`/`N`) or absent bounds emit nothing. -/
def cardTriples (b : Term) (gps : PropGroups) : List Triple :=
  if !gps.hasSep && isNumTok gps.cmin then
    [⟨b, shMinCountT, .intLit (natOfTok gps.cmin)⟩,
     ⟨b, shMaxCountT, .intLit (natOfTok gps.cmin)⟩]
  else
    (if !(gps.cmin == "") && isNumTok gps.cmin then
      [⟨b, shMinCountT, .intLit (natOfTok gps.cmin)⟩]
     else []) ++
    (match gps.cmax with
     | some cm => if !(cm == "") && isNumTok cm then [⟨b, shMaxCountT, .intLit (natOfTok cm)⟩] else []
     | none => [])

/-- Resolution of the target token to `(target_local, target_ns)`
(`main.py` lines 257-266): qualified targets split at the colon and go
through `_resolve_namespace` (raising `Unknown prefix` on failure, or the
unpack `ValueError` when the split does not give exactly two parts);
unqualified targets go through the observed-URI-suffix map only (raising
`Cannot resolve unqualified name` on a miss). -/
def resolveTargetTok (target classUri propText : String) (g : OntGraph)
    (uriNs litPfx : List (String × String)) : Except PErr (String × String) :=
  if target.toList.contains ':' then
    match splitColon target with
    | [tp, tl] =>
      match resolveNamespace tp tl g uriNs litPfx with
      | none => .error (.unknownPfx tp classUri propText)
      | some tns => .ok (tl, tns)
    | parts => .error (.unpackErr parts.length)
  else
    match lookupLast uriNs target with
    | none => .error (.cannotResolve target classUri propText)
    | some tns => .ok (target, tns)

/-- Target classification (`main.py` lines 268-287): the literal-kind
marker token, then `xsd:`-prefixed datatypes, then modeled classes from the
global class-to-modules index (current module preferred, else the
lexicographically first owning module), else `BlankNodeOrIRI`. -/
def targetConstraint (b : Term) (target tl tns : String)
    (c2m : List (String × List String)) (moduleName shapesBase : String)
    (isModular : Bool) : Except PErr Triple :=
  if target = "rdfs:Literal" then .ok ⟨b, shNodeKindT, shLiteralT⟩
  else if "xsd:".toList.isPrefixOf target.toList then .ok ⟨b, shDatatypeT, .uri (xsdNS ++ tl)⟩
  else
    match lookupC2M c2m (tns ++ tl) with
    | some tmods =>
      match (if tmods.contains moduleName then some moduleName else (sortStr tmods).head?) with
      | none => .error .indexErr
      | some tmod =>
        let tShapeNs := if isModular then shapesBase ++ tmod ++ "/" else shapesBase
        .ok ⟨b, shNodeT, .uri (tShapeNs ++ tl ++ "Shape")⟩
    | none => .ok ⟨b, shNodeKindT, shBlankNodeOrIRIT⟩

/-- `_process_property`, parametrised by the blank node `b` it mints for
the constraint.  On success it returns the triples added for this property
in insertion order; on failure the raised error (a failing run adds no
output because serialization is never reached). -/
def processPropertyB (propText classUri : String) (g : OntGraph) (shapeUri : Term)
    (c2m : List (String × List String)) (moduleName shapesBase : String)
    (isModular : Bool) (uriNs litPfx : List (String × String)) (b : Term) :
    Except PErr (List Triple) :=
  match matchProp propText.toList with
  | none => .error (.invalidFormat classUri propText)
  | some gps =>
    match splitColon gps.name with
    | [pp, pl] =>
      match resolveNamespace pp pl g uriNs litPfx with
      | none => .error (.unknownPfx pp classUri propText)
      | some pns =>
        match resolveTargetTok gps.target classUri propText g uriNs litPfx with
        | .error e => .error e
        | .ok tgt =>
          match targetConstraint b gps.target tgt.1 tgt.2 c2m moduleName shapesBase isModular with
          | .error e => .error e
          | .ok lastT =>
            .ok ([⟨shapeUri, shPropertyT, b⟩, ⟨b, shPathT, .uri (pns ++ pl)⟩] ++
                 cardTriples b gps ++ [lastT])
    | parts => .error (.unpackErr parts.length)

/-- `_process_property` with the minted blank node drawn from a counter
(the `n`-th `BNode()` of the run is `Term.cnode n`). -/
def processProperty (propText classUri : String) (g : OntGraph) (shapeUri : Term)
    (c2m : List (String × List String)) (moduleName shapesBase : String)
    (isModular : Bool) (uriNs litPfx : List (String × String)) (k : Nat) :
    Except PErr (List Triple × Nat) :=
  match processPropertyB propText classUri g shapeUri c2m moduleName shapesBase
      isModular uriNs litPfx (Term.cnode k) with
  | .error e => .error e
  | .ok ts => .ok (ts, k + 1)

/-- The per-class property loop (`main.py` lines 331-336): each segment is
stripped and processed in order; the first failure aborts. -/
def processSegs (classUri : String) (g : OntGraph) (shapeUri : Term)
    (c2m : List (String × List String)) (moduleName shapesBase : String)
    (isModular : Bool) (uriNs litPfx : List (String × String)) :
    List String → Nat → Except PErr (List Triple × Nat)
  | [], k => .ok ([], k)
  | s :: rest, k =>
    match processProperty (pyStrip s) classUri g shapeUri c2m moduleName shapesBase
        isModular uriNs litPfx k with
    | .error e => .error e
    | .ok tk =>
      match processSegs classUri g shapeUri c2m moduleName shapesBase
          isModular uriNs litPfx rest tk.2 with
      | .error e => .error e
      | .ok tk2 => .ok (tk.1 ++ tk2.1, tk2.2)

/-- The shape URI minted for a class in a module (`main.py` lines 307 and
322, also reused for the target of a `sh:node` reference at line 284):
shape namespace (per-module sub-namespace when modular) + local name +
`"Shape"`. -/
def shapeUriFor (shapesBase : String) (isModular : Bool)
    (moduleName classUri : String) : Term :=
  .uri ((if isModular then shapesBase ++ moduleName ++ "/" else shapesBase) ++
        getClassLocalName classUri ++ "Shape")

/-- The per-class body of `create_shacl_shapes` (lines 311-336): skip
classes without a truthy description containing the marker phrase; emit the
shape node typed `sh:NodeShape`, a `sh:targetClass` binding only for root
classes, then the property constraints. -/
def processClass (g : OntGraph) (cls : Term) (c2m : List (String × List String))
    (moduleName shapesBase : String) (isModular : Bool)
    (uriNs litPfx : List (String × String)) (rootSet : List String) (k : Nat) :
    Except PErr (List Triple × Nat) :=
  match graphValue g cls dcDescriptionT with
  | none => .ok ([], k)
  | some desc =>
    let ds := termStr desc
    if ds = "" then .ok ([], k)
    else if !containsSub markerPhrase ds then .ok ([], k)
    else
      let classUri := termStr cls
      let shapeUri := shapeUriFor shapesBase isModular moduleName classUri
      match processSegs classUri g shapeUri c2m moduleName shapesBase isModular
          uriNs litPfx (segmentsOf ds) k with
      | .error e => .error e
      | .ok tk =>
        .ok (([⟨shapeUri, rdfTypeT, shNodeShapeT⟩] ++
              (if rootSet.contains classUri then [⟨shapeUri, shTargetClassT, cls⟩] else []) ++
              tk.1), tk.2)

def processClasses (g : OntGraph) (c2m : List (String × List String))
    (moduleName shapesBase : String) (isModular : Bool)
    (uriNs litPfx : List (String × String)) (rootSet : List String) :
    List Term → Nat → Except PErr (List Triple × Nat)
  | [], k => .ok ([], k)
  | c :: cs, k =>
    match processClass g c c2m moduleName shapesBase isModular uriNs litPfx rootSet k with
    | .error e => .error e
    | .ok tk =>
      match processClasses g c2m moduleName shapesBase isModular uriNs litPfx rootSet cs tk.2 with
      | .error e => .error e
      | .ok tk2 => .ok (tk.1 ++ tk2.1, tk2.2)

/-- One iteration of the per-module loop (lines 306-336): the module's
namespace maps are built once and its described classes processed. -/
def processModule (c2m : List (String × List String)) (shapesBase : String)
    (isModular : Bool) (rootSet : List String) (m : String × OntGraph) (k : Nat) :
    Except PErr (List Triple × Nat) :=
  processClasses m.2 c2m m.1 shapesBase isModular (buildUriNsMap m.2)
    (extractPfxFromLits m.2) rootSet (subjectsOfType m.2 owlClassT) k

def processModules (c2m : List (String × List String)) (shapesBase : String)
    (isModular : Bool) (rootSet : List String) :
    List (String × OntGraph) → Nat → Except PErr (List Triple × Nat)
  | [], k => .ok ([], k)
  | m :: ms, k =>
    match processModule c2m shapesBase isModular rootSet m k with
    | .error e => .error e
    | .ok tk =>
      match processModules c2m shapesBase isModular rootSet ms tk.2 with
      | .error e => .error e
      | .ok tk2 => .ok (tk.1 ++ tk2.1, tk2.2)

/-- `_get_ontology_iri`: `str` of the first subject typed `owl:Ontology`. -/
def getOntologyIri (g : OntGraph) : Option String :=
  (g.triples.find? (fun t => t.p == rdfTypeT && t.o == owlOntologyT)).map (fun t => termStr t.s)

def rstripSlash (s : String) : String :=
  String.mk ((s.toList.reverse.dropWhile (fun c => c == '/')).reverse)

/-- `_derive_shapes_base` (the input source string is not consulted). -/
def deriveShapesBase (g : OntGraph) : String :=
  match getOntologyIri g with
  | some iri => rstripSlash iri ++ "/shapes/"
  | none => "http://example.org/shapes/"

/-- `_resolve_shapes_base`: explicit override wins; modular sources use the
fixed base; a single fragment derives the base from its first (only)
module, `next(iter(...))` raising `StopIteration` when there is none. -/
def resolveShapesBase (modules : List (String × OntGraph)) (isModular : Bool)
    (shapesBaseOpt : Option String) : Except PErr String :=
  match shapesBaseOpt with
  | some b => .ok b
  | none =>
    if isModular then .ok SHAPES_BASE
    else
      match modules with
      | [] => .error .stopIteration
      | m :: _ => .ok (deriveShapesBase m.2)

/-- The initial prefix-binding table of a freshly constructed rdflib
`Graph()` (`bind_namespaces="rdflib"`): the core and extra namespaces
rdflib binds on creation.  `_resolve_root_class_uris` builds such a fresh
graph for the union of all modules. -/
def rdflibDefaultNsBind : List (String × String) :=
  [("brick", "https://brickschema.org/schema/Brick#"),
   ("csvw", "http://www.w3.org/ns/csvw#"),
   ("dc", "http://purl.org/dc/elements/1.1/"),
   ("dcat", "http://www.w3.org/ns/dcat#"),
   ("dcmitype", "http://purl.org/dc/dcmitype/"),
   ("dcterms", "http://purl.org/dc/terms/"),
   ("dcam", "http://purl.org/dc/dcam/"),
   ("doap", "http://usefulinc.com/ns/doap#"),
   ("foaf", "http://xmlns.com/foaf/0.1/"),
   ("geo", "http://www.opengis.net/ont/geosparql#"),
   ("odrl", "http://www.w3.org/ns/odrl/2/"),
   ("org", "http://www.w3.org/ns/org#"),
   ("prof", "http://www.w3.org/ns/dx/prof/"),
   ("prov", "http://www.w3.org/ns/prov#"),
   ("qb", "http://purl.org/linked-data/cube#"),
   ("schema", "https://schema.org/"),
   ("sh", "http://www.w3.org/ns/shacl#"),
   ("skos", "http://www.w3.org/2004/02/skos/core#"),
   ("sosa", "http://www.w3.org/ns/sosa/"),
   ("ssn", "http://www.w3.org/ns/ssn/"),
   ("time", "http://www.w3.org/2006/time#"),
   ("vann", "http://purl.org/vocab/vann/"),
   ("void", "http://rdfs.org/ns/void#"),
   ("wgs", "https://www.w3.org/2003/01/geo/wgs84_pos#"),
   ("owl", "http://www.w3.org/2002/07/owl#"),
   ("rdf", "http://www.w3.org/1999/02/22-rdf-syntax-ns#"),
   ("rdfs", "http://www.w3.org/2000/01/rdf-schema#"),
   ("xsd", "http://www.w3.org/2001/XMLSchema#"),
   ("xml", "http://www.w3.org/XML/1998/namespace")]

/-- The union graph built by `_resolve_root_class_uris` for the
single-fragment case: every module's triples added to a fresh graph (set
semantics — duplicates collapse) and every module's prefix bindings bound
onto it (a prefix already bound to a different namespace keeps its first
binding, so lookup is first-match over defaults-then-module-bindings). -/
def unionGraph (modules : List (String × OntGraph)) : OntGraph :=
  { triples := dedupFirst (modules.flatMap (fun m => m.2.triples)),
    nsBind := rdflibDefaultNsBind ++ modules.flatMap (fun m => m.2.nsBind) }

/-- `_resolve_root_class_uris`: the fixed table in the modular case,
structural detection over the union graph otherwise. -/
def resolveRootClassUris (modules : List (String × OntGraph))
    (c2m : List (String × List String)) (isModular : Bool) :
    Except PErr (List String) :=
  if isModular then .ok rootClassesFixed
  else detectRootClasses (unionGraph modules) (c2m.map (fun kv => kv.1))

/-- `create_shacl_shapes` from the point where the source has been loaded
into named module graphs: the produced shape graph as its list of triples
(namespace binds on the output graph are serialization concerns and carry
no triples).  `k` is the index of the first blank node the run mints. -/
def createShaclShapes (modules : List (String × OntGraph)) (isModular : Bool)
    (shapesBaseOpt : Option String) (k : Nat) : Except PErr (List Triple) :=
  match resolveShapesBase modules isModular shapesBaseOpt with
  | .error e => .error e
  | .ok shapesBase =>
    let c2m := buildClassToModules modules
    match resolveRootClassUris modules c2m isModular with
    | .error e => .error e
    | .ok rootSet =>
      match processModules c2m shapesBase isModular rootSet modules k with
      | .error e => .error e
      | .ok tk => .ok tk.1

/-- Rename the run-minted blank nodes by shifting their counter. -/
def cshiftT (d : Nat) : Term → Term
  | .cnode n => .cnode (n + d)
  | t => t

def cshiftTr (d : Nat) (t : Triple) : Triple :=
  ⟨cshiftT d t.s, cshiftT d t.p, cshiftT d t.o⟩

def cnodeFreeT : Term → Bool
  | .cnode _ => false
  | _ => true

/-- No extractor-minted blank node occurs in the graph (true of every graph
obtained by parsing an input file). -/
def cnodeFreeG (g : OntGraph) : Bool :=
  g.triples.all (fun t => cnodeFreeT t.s && cnodeFreeT t.p && cnodeFreeT t.o)

/-- A tiny graph whose store binds only the prefix `ex` (used to witness
concrete resolutions). -/
def gW5 : OntGraph := { triples := [], nsBind := [("ex", "http://ex.org/")] }

/-- C5.  Namespace resolution of `(prefix, local_name)` over a module graph
tries exactly three strategies in priority order — the store's declared
prefix bindings first (a binding to the empty string is falsy and is
skipped), then the observed-URI-suffix map keyed by the local name, then
prefixes declared inside literals — returning the first hit, and returns
`none` exactly when all three miss. -/
theorem claim_C5_resolution_order (pfxTok localName : String) (g : OntGraph)
    (uriNs litPfx : List (String × String)) :
    (∀ ns, storeNamespace g pfxTok = some ns → ns ≠ "" →
      resolveNamespace pfxTok localName g uriNs litPfx = some ns) ∧
    ((storeNamespace g pfxTok = none ∨ storeNamespace g pfxTok = some "") →
      ∀ v, lookupLast uriNs localName = some v →
      resolveNamespace pfxTok localName g uriNs litPfx = some v) ∧
    ((storeNamespace g pfxTok = none ∨ storeNamespace g pfxTok = some "") →
      lookupLast uriNs localName = none →
      resolveNamespace pfxTok localName g uriNs litPfx = lookupLast litPfx pfxTok) ∧
    (resolveNamespace pfxTok localName g uriNs litPfx = none ↔
      ((storeNamespace g pfxTok = none ∨ storeNamespace g pfxTok = some "") ∧
       lookupLast uriNs localName = none ∧ lookupLast litPfx pfxTok = none)) := by
  refine ⟨?_, ?_, ?_, ?_⟩
  · intro ns hns hne
    simp only [resolveNamespace, hns]
    simp [hne]
  · rintro (h | h) v hv <;> simp [resolveNamespace, h, hv]
  · rintro (h | h) hv <;> simp [resolveNamespace, h, hv]
  · constructor
    · intro h
      cases hs : storeNamespace g pfxTok with
      | none =>
        simp only [resolveNamespace, hs] at h
        cases hu : lookupLast uriNs localName with
        | none => simp only [hu] at h; exact ⟨Or.inl rfl, rfl, h⟩
        | some v => simp [hu] at h
      | some ns =>
        simp only [resolveNamespace, hs] at h
        by_cases hne : ns = ""
        · subst hne
          simp only [if_pos rfl] at h
          cases hu : lookupLast uriNs localName with
          | none => simp only [hu] at h; exact ⟨Or.inr rfl, rfl, h⟩
          | some v => simp [hu] at h
        · simp [hne] at h
    · rintro ⟨h1, h2, h3⟩
      rcases h1 with h | h <;> simp [resolveNamespace, h, h2, h3]

/-- Witness for C5: a concrete resolution through each strategy. -/
theorem claim_C5_witness :
    resolveNamespace "ex" "T" gW5 [] [] = some "http://ex.org/" ∧
    resolveNamespace "pfx" "T" gW5 [("T", "http://suffix.org/")] [] = some "http://suffix.org/" ∧
    resolveNamespace "pfx" "T" gW5 [] [("pfx", "http://lit.org/")] = some "http://lit.org/" ∧
    resolveNamespace "pfx" "T" gW5 [] [] = none := by
  refine ⟨?_, ?_, ?_, ?_⟩
  · exact (claim_C5_resolution_order "ex" "T" gW5 [] []).1 "http://ex.org/" (by decide) (by decide)
  · exact (claim_C5_resolution_order "pfx" "T" gW5 [("T", "http://suffix.org/")] []).2.1
      (Or.inl (by decide)) "http://suffix.org/" (by decide)
  · have h := (claim_C5_resolution_order "pfx" "T" gW5 [] [("pfx", "http://lit.org/")]).2.2.1
      (Or.inl (by decide)) (by decide)
    rw [h]; decide
  · exact ((claim_C5_resolution_order "pfx" "T" gW5 [] []).2.2.2).2
      ⟨Or.inl (by decide), by decide, by decide⟩

lemma parseCard_fst_ne (cs : List Char) (s : String) (r : List Char)
    (h : parseCard cs = some (s, r)) : s ≠ "" := by
  simp only [parseCard] at h
  split at h
  · split at h
    · simp only [Option.some.injEq, Prod.mk.injEq] at h
      intro hc; exact absurd (h.1.trans hc) (by decide)
    · simp only [Option.some.injEq, Prod.mk.injEq] at h
      intro hc; exact absurd (h.1.trans hc) (by decide)
    · exact absurd h (by simp)
  · rename_i hne
    simp only [Option.some.injEq, Prod.mk.injEq] at h
    intro hc
    rw [← h.1] at hc
    have hd : cs.takeWhile digitChar = [] := congrArg String.data hc
    rw [hd] at hne
    exact hne rfl

lemma matchProp_some_inv (cs : List Char) (gps : PropGroups)
    (h : matchProp cs = some gps) :
    gps.cmin ≠ "" ∧ (∀ cm, gps.cmax = some cm → cm ≠ "") := by
  simp only [matchProp] at h
  split at h
  · exact absurd h (by simp)
  · split at h
    · exact absurd h (by simp)
    · rename_i r1 _
      rcases h1 : parseCard r1 with _ | ⟨cmin, r2⟩
      · rw [h1] at h; exact absurd h (by simp)
      · rw [h1] at h
        simp only at h
        split at h
        · exact absurd h (by simp)
        · rename_i r5 _
          split at h
          · exact absurd h (by simp)
          · split at h
            · exact absurd h (by simp)
            · simp only [Option.some.injEq] at h
              subst h
              refine ⟨parseCard_fst_ne r1 cmin r2 h1, ?_⟩
              intro cm hcm
              simp only [maxSplit] at hcm
              rcases h2 : parseCard (sepSplit r2).2 with _ | ⟨cm2, r4⟩ <;>
                rw [h2] at hcm
              · simp at hcm
              · simp only [Option.some.injEq] at hcm
                subst hcm
                exact parseCard_fst_ne _ _ _ h2

lemma targetConstraint_ok_shape (b : Term) (target tl tns : String)
    (c2m : List (String × List String)) (mn sb : String) (im : Bool) (t : Triple)
    (h : targetConstraint b target tl tns c2m mn sb im = .ok t) :
    t.s = b ∧ (t.p = shNodeKindT ∨ t.p = shDatatypeT ∨ t.p = shNodeT) := by
  simp only [targetConstraint] at h
  split at h
  · simp only [Except.ok.injEq] at h; subst h; exact ⟨rfl, Or.inl rfl⟩
  · split at h
    · simp only [Except.ok.injEq] at h; subst h; exact ⟨rfl, Or.inr (Or.inl rfl)⟩
    · split at h
      · split at h
        · exact absurd h (by simp)
        · simp only [Except.ok.injEq] at h; subst h
          exact ⟨rfl, Or.inr (Or.inr rfl)⟩
      · simp only [Except.ok.injEq] at h; subst h; exact ⟨rfl, Or.inl rfl⟩

lemma processPropertyB_ok_shape (propText classUri : String) (g : OntGraph)
    (shapeUri : Term) (c2m : List (String × List String)) (mn sb : String)
    (im : Bool) (uriNs litPfx : List (String × String)) (b : Term)
    (ts : List Triple)
    (h : processPropertyB propText classUri g shapeUri c2m mn sb im uriNs litPfx b = .ok ts) :
    ∃ gps pathObj lastT, matchProp propText.toList = some gps ∧
      lastT.s = b ∧ (lastT.p = shNodeKindT ∨ lastT.p = shDatatypeT ∨ lastT.p = shNodeT) ∧
      ts = [⟨shapeUri, shPropertyT, b⟩, ⟨b, shPathT, pathObj⟩] ++
           cardTriples b gps ++ [lastT] := by
  simp only [processPropertyB] at h
  split at h
  · exact absurd h (by simp)
  · rename_i gps hm
    split at h
    · rename_i pp pl hsplit
      split at h
      · exact absurd h (by simp)
      · rename_i pns hres
        split at h
        · exact absurd h (by simp)
        · rename_i tgt htgt
          split at h
          · exact absurd h (by simp)
          · rename_i lastT hlast
            simp only [Except.ok.injEq] at h
            subst h
            obtain ⟨hs, hp⟩ := targetConstraint_ok_shape b gps.target tgt.1 tgt.2
              c2m mn sb im lastT hlast
            exact ⟨gps, .uri (pns ++ pl), lastT, hm, hs, hp, rfl⟩
    · exact absurd h (by simp)

lemma shPropertyT_ne_min : shPropertyT ≠ shMinCountT := by decide

lemma shPathT_ne_min : shPathT ≠ shMinCountT := by decide

lemma shNodeKindT_ne_min : shNodeKindT ≠ shMinCountT := by decide

lemma shDatatypeT_ne_min : shDatatypeT ≠ shMinCountT := by decide

lemma shNodeT_ne_min : shNodeT ≠ shMinCountT := by decide

lemma shPropertyT_ne_max : shPropertyT ≠ shMaxCountT := by decide

lemma shPathT_ne_max : shPathT ≠ shMaxCountT := by decide

lemma shNodeKindT_ne_max : shNodeKindT ≠ shMaxCountT := by decide

lemma shDatatypeT_ne_max : shDatatypeT ≠ shMaxCountT := by decide

lemma shNodeT_ne_max : shNodeT ≠ shMaxCountT := by decide

lemma shMin_ne_max : shMinCountT ≠ shMaxCountT := by decide

lemma shMax_ne_min : shMaxCountT ≠ shMinCountT := by decide

lemma bfalse {b : Bool} (h : ¬ b = true) : b = false := by
  cases b
  · rfl
  · exact absurd rfl h

/-- Count-triple membership in a property constraint's triples reduces to
membership in its `cardTriples` block (all other triples of the block carry
a different predicate). -/
lemma count_mem_iff_cardTriples (shapeUri b pathObj : Term) (lastT : Triple)
    (gps : PropGroups) (p v : Term)
    (hp : p = shMinCountT ∨ p = shMaxCountT)
    (hlp : lastT.p = shNodeKindT ∨ lastT.p = shDatatypeT ∨ lastT.p = shNodeT) :
    (Triple.mk b p v ∈
        ([⟨shapeUri, shPropertyT, b⟩, ⟨b, shPathT, pathObj⟩] ++
         cardTriples b gps ++ [lastT])) ↔
      Triple.mk b p v ∈ cardTriples b gps := by
  simp only [List.mem_append, List.mem_cons, List.mem_singleton, List.not_mem_nil, or_false]
  constructor
  · rintro (((h | h) | h) | h)
    · exfalso
      have h4 := congrArg Triple.p h
      simp only at h4
      rcases hp with h2 | h2 <;> rw [h2] at h4 <;> revert h4 <;> decide
    · exfalso
      have h4 := congrArg Triple.p h
      simp only at h4
      rcases hp with h2 | h2 <;> rw [h2] at h4 <;> revert h4 <;> decide
    · exact h
    · exfalso
      have h4 := congrArg Triple.p h
      simp only at h4
      rcases hp with h2 | h2 <;> rcases hlp with h3 | h3 | h3 <;>
        rw [h2, h3] at h4 <;> revert h4 <;> decide
  · intro h
    exact Or.inl (Or.inr h)

lemma cardTriples_min_mem (b v : Term) (gps : PropGroups) (hcne : gps.cmin ≠ "") :
    (Triple.mk b shMinCountT v ∈ cardTriples b gps) ↔
      (isNumTok gps.cmin = true ∧ v = Term.intLit (natOfTok gps.cmin)) := by
  have hcneb : (gps.cmin == "") = false := by simp [hcne]
  unfold cardTriples
  cases hnum : isNumTok gps.cmin with
  | false =>
    cases hx : gps.cmax with
    | none => simp [hnum]
    | some cm =>
      by_cases h2 : (!(cm == "") && isNumTok cm) = true
      · simp [hnum, h2, shMin_ne_max, shMax_ne_min]
      · simp [hnum, bfalse h2, shMax_ne_min]
  | true =>
    cases hsep : gps.hasSep with
    | false => simp [hnum, hsep, hcneb, shMin_ne_max, shMax_ne_min]
    | true =>
      cases hx : gps.cmax with
      | none => simp [hnum, hsep, hcneb]
      | some cm =>
        by_cases h2 : (!(cm == "") && isNumTok cm) = true
        · simp [hnum, hsep, hcneb, h2, shMin_ne_max, shMax_ne_min]
        · simp [hnum, hsep, hcneb, bfalse h2, shMax_ne_min]

lemma cardTriples_max_mem (b v : Term) (gps : PropGroups)
    (hcmne : ∀ cm, gps.cmax = some cm → cm ≠ "") :
    (Triple.mk b shMaxCountT v ∈ cardTriples b gps) ↔
      (((!gps.hasSep && isNumTok gps.cmin) = true ∧
        v = Term.intLit (natOfTok gps.cmin)) ∨
       ((!gps.hasSep && isNumTok gps.cmin) = false ∧
        ∃ cm, gps.cmax = some cm ∧ isNumTok cm = true ∧
          v = Term.intLit (natOfTok cm))) := by
  unfold cardTriples
  cases hnum : isNumTok gps.cmin with
  | false =>
    cases hx : gps.cmax with
    | none => simp [hnum]
    | some cm =>
      have hcmb : (cm == "") = false := by simp [hcmne cm hx]
      cases h2 : isNumTok cm with
      | true => simp [hnum, hcmb, h2, shMin_ne_max, shMax_ne_min]
      | false => simp [hnum, hcmb, h2]
  | true =>
    cases hsep : gps.hasSep with
    | false => simp [hnum, hsep, shMin_ne_max, shMax_ne_min]
    | true =>
      have hcneb2 : ∀ x, (Triple.mk b shMaxCountT v =
          Triple.mk b shMinCountT x) ↔ False := by
        intro x
        simp [Triple.mk.injEq, shMin_ne_max, shMax_ne_min]
      cases hx : gps.cmax with
      | none => simp [hnum, hsep, hcneb2]
      | some cm =>
        have hcmb : (cm == "") = false := by simp [hcmne cm hx]
        cases h2 : isNumTok cm with
        | true => simp [hnum, hsep, hcmb, h2, hcneb2]
        | false => simp [hnum, hsep, hcmb, h2, hcneb2]

/-- C1.  For every property line of the range form `p -[a..b]-> t`, the
emitted constraint carries `minCount = a` exactly when `a` is numeric and
`maxCount = b` exactly when `b` is present and numeric (a wildcard or
absent bound yields no corresponding count triple); for the exact form
`p -[n]-> t` with numeric `n` and no range separator, the constraint
carries `minCount = maxCount = n`. -/
theorem claim_C1_cardinality (propText classUri : String) (g : OntGraph)
    (shapeUri : Term) (c2m : List (String × List String)) (mn sb : String)
    (im : Bool) (uriNs litPfx : List (String × String)) (k : Nat)
    (gps : PropGroups) (ts : List Triple) (k' : Nat)
    (hm : matchProp propText.toList = some gps)
    (hok : processProperty propText classUri g shapeUri c2m mn sb im uriNs litPfx k
      = .ok (ts, k')) :
    (gps.hasSep = true →
      ((isNumTok gps.cmin = true →
        Triple.mk (Term.cnode k) shMinCountT (Term.intLit (natOfTok gps.cmin)) ∈ ts ∧
        ∀ v, Triple.mk (Term.cnode k) shMinCountT v ∈ ts →
          v = Term.intLit (natOfTok gps.cmin)) ∧
       (isNumTok gps.cmin = false →
        ∀ v, Triple.mk (Term.cnode k) shMinCountT v ∉ ts) ∧
       (∀ cm, gps.cmax = some cm → isNumTok cm = true →
        Triple.mk (Term.cnode k) shMaxCountT (Term.intLit (natOfTok cm)) ∈ ts ∧
        ∀ v, Triple.mk (Term.cnode k) shMaxCountT v ∈ ts →
          v = Term.intLit (natOfTok cm)) ∧
       (∀ cm, gps.cmax = some cm → isNumTok cm = false →
        ∀ v, Triple.mk (Term.cnode k) shMaxCountT v ∉ ts) ∧
       (gps.cmax = none →
        ∀ v, Triple.mk (Term.cnode k) shMaxCountT v ∉ ts))) ∧
    (gps.hasSep = false → gps.cmax = none → isNumTok gps.cmin = true →
      Triple.mk (Term.cnode k) shMinCountT (Term.intLit (natOfTok gps.cmin)) ∈ ts ∧
      Triple.mk (Term.cnode k) shMaxCountT (Term.intLit (natOfTok gps.cmin)) ∈ ts ∧
      (∀ v, Triple.mk (Term.cnode k) shMinCountT v ∈ ts →
        v = Term.intLit (natOfTok gps.cmin)) ∧
      (∀ v, Triple.mk (Term.cnode k) shMaxCountT v ∈ ts →
        v = Term.intLit (natOfTok gps.cmin))) := by
  have hB : processPropertyB propText classUri g shapeUri c2m mn sb im uriNs litPfx
      (Term.cnode k) = .ok ts := by
    simp only [processProperty] at hok
    split at hok
    · exact absurd hok (by simp)
    · rename_i ts0 hB0
      simp only [Except.ok.injEq, Prod.mk.injEq] at hok
      rw [← hok.1]
      exact hB0
  obtain ⟨gps2, pathObj, lastT, hm2, hls, hlp, hts⟩ :=
    processPropertyB_ok_shape propText classUri g shapeUri c2m mn sb im uriNs litPfx
      (Term.cnode k) ts hB
  rw [hm] at hm2
  have hg : gps = gps2 := Option.some.inj hm2
  subst hg
  obtain ⟨hcne, hcmne⟩ := matchProp_some_inv propText.toList gps hm
  have hmin : ∀ v, (Triple.mk (Term.cnode k) shMinCountT v ∈ ts) ↔
      (isNumTok gps.cmin = true ∧ v = Term.intLit (natOfTok gps.cmin)) := by
    intro v
    rw [hts, count_mem_iff_cardTriples shapeUri (Term.cnode k) pathObj lastT gps
      shMinCountT v (Or.inl rfl) hlp]
    exact cardTriples_min_mem (Term.cnode k) v gps hcne
  have hmax : ∀ v, (Triple.mk (Term.cnode k) shMaxCountT v ∈ ts) ↔
      (((!gps.hasSep && isNumTok gps.cmin) = true ∧
        v = Term.intLit (natOfTok gps.cmin)) ∨
       ((!gps.hasSep && isNumTok gps.cmin) = false ∧
        ∃ cm, gps.cmax = some cm ∧ isNumTok cm = true ∧
          v = Term.intLit (natOfTok cm))) := by
    intro v
    rw [hts, count_mem_iff_cardTriples shapeUri (Term.cnode k) pathObj lastT gps
      shMaxCountT v (Or.inr rfl) hlp]
    exact cardTriples_max_mem (Term.cnode k) v gps hcmne
  constructor
  · intro hsep
    have hcondf : (!gps.hasSep && isNumTok gps.cmin) = false := by
      rw [hsep]
      simp
    refine ⟨?_, ?_, ?_, ?_, ?_⟩
    · intro hnum
      exact ⟨(hmin _).mpr ⟨hnum, rfl⟩, fun v hv => ((hmin v).mp hv).2⟩
    · intro hnum v hv
      have h2 := ((hmin v).mp hv).1
      rw [hnum] at h2
      cases h2
    · intro cm hx hy
      refine ⟨(hmax _).mpr (Or.inr ⟨hcondf, cm, hx, hy, rfl⟩), ?_⟩
      intro v hv
      rcases (hmax v).mp hv with ⟨hc, _⟩ | ⟨_, cm2, hx2, _, hv2⟩
      · rw [hcondf] at hc
        cases hc
      · rw [hx] at hx2
        have : cm2 = cm := by injection hx2.symm
        rw [← this]
        exact hv2
    · intro cm hx hy v hv
      rcases (hmax v).mp hv with ⟨hc, _⟩ | ⟨_, cm2, hx2, hnum2, _⟩
      · rw [hcondf] at hc
        cases hc
      · rw [hx] at hx2
        have : cm2 = cm := by injection hx2.symm
        rw [this] at hnum2
        rw [hy] at hnum2
        cases hnum2
    · intro hx v hv
      rcases (hmax v).mp hv with ⟨hc, _⟩ | ⟨_, cm2, hx2, _, _⟩
      · rw [hcondf] at hc
        cases hc
      · rw [hx] at hx2
        cases hx2
  · intro hsep hx hnum
    have hcondt : (!gps.hasSep && isNumTok gps.cmin) = true := by
      rw [hsep, hnum]
      simp
    refine ⟨(hmin _).mpr ⟨hnum, rfl⟩, (hmax _).mpr (Or.inl ⟨hcondt, rfl⟩),
      fun v hv => ((hmin v).mp hv).2, ?_⟩
    intro v hv
    rcases (hmax v).mp hv with ⟨_, hv2⟩ | ⟨hc, _⟩
    · exact hv2
    · rw [hcondt] at hc
      cases hc

/-- Witness for C1: the exact form `-[1]->` yields `minCount = maxCount = 1`
and the range form `-[0..N]->` yields `minCount = 0` and no `maxCount`. -/
theorem claim_C1_witness :
    (Triple.mk (Term.cnode 0) shMinCountT (Term.intLit 1) ∈
      [⟨Term.uri "http://b/CShape", shPropertyT, Term.cnode 0⟩,
       ⟨Term.cnode 0, shPathT, Term.uri "http://ex.org/p"⟩,
       ⟨Term.cnode 0, shMinCountT, Term.intLit 1⟩,
       ⟨Term.cnode 0, shMaxCountT, Term.intLit 1⟩,
       ⟨Term.cnode 0, shNodeKindT, shBlankNodeOrIRIT⟩] ∧
     Triple.mk (Term.cnode 0) shMaxCountT (Term.intLit 1) ∈
      [⟨Term.uri "http://b/CShape", shPropertyT, Term.cnode 0⟩,
       ⟨Term.cnode 0, shPathT, Term.uri "http://ex.org/p"⟩,
       ⟨Term.cnode 0, shMinCountT, Term.intLit 1⟩,
       ⟨Term.cnode 0, shMaxCountT, Term.intLit 1⟩,
       ⟨Term.cnode 0, shNodeKindT, shBlankNodeOrIRIT⟩]) ∧
    (∀ v, Triple.mk (Term.cnode 0) shMaxCountT v ∉
      [⟨Term.uri "http://b/CShape", shPropertyT, Term.cnode 0⟩,
       ⟨Term.cnode 0, shPathT, Term.uri "http://ex.org/p"⟩,
       ⟨Term.cnode 0, shMinCountT, Term.intLit 0⟩,
       ⟨Term.cnode 0, shNodeKindT, shBlankNodeOrIRIT⟩]) := by
  constructor
  · have h := claim_C1_cardinality "ex:p -[1]-> ex:T" "http://ex.org/C" gW5
      (Term.uri "http://b/CShape") [] "m" "http://b/" false
      [("p", "http://ex.org/"), ("T", "http://ex.org/")] [] 0
      ⟨"ex:p", "1", false, none, "ex:T"⟩
      [⟨Term.uri "http://b/CShape", shPropertyT, Term.cnode 0⟩,
       ⟨Term.cnode 0, shPathT, Term.uri "http://ex.org/p"⟩,
       ⟨Term.cnode 0, shMinCountT, Term.intLit 1⟩,
       ⟨Term.cnode 0, shMaxCountT, Term.intLit 1⟩,
       ⟨Term.cnode 0, shNodeKindT, shBlankNodeOrIRIT⟩] 1
      (by decide) (by decide)
    obtain ⟨h1, h2, _, _⟩ := h.2 rfl rfl rfl
    exact ⟨h1, h2⟩
  · have h := claim_C1_cardinality "ex:p -[0..N]-> ex:T" "http://ex.org/C" gW5
      (Term.uri "http://b/CShape") [] "m" "http://b/" false
      [("p", "http://ex.org/"), ("T", "http://ex.org/")] [] 0
      ⟨"ex:p", "0", true, some "N", "ex:T"⟩
      [⟨Term.uri "http://b/CShape", shPropertyT, Term.cnode 0⟩,
       ⟨Term.cnode 0, shPathT, Term.uri "http://ex.org/p"⟩,
       ⟨Term.cnode 0, shMinCountT, Term.intLit 0⟩,
       ⟨Term.cnode 0, shNodeKindT, shBlankNodeOrIRIT⟩] 1
      (by decide) (by decide)
    exact fun v => (h.1 rfl).2.2.2.1 "N" rfl rfl v

lemma cardTriples_pred (b : Term) (gps : PropGroups) (t : Triple)
    (ht : t ∈ cardTriples b gps) : t.p = shMinCountT ∨ t.p = shMaxCountT := by
  unfold cardTriples at ht
  split at ht
  · rcases List.mem_cons.mp ht with h | h
    · exact Or.inl (by rw [h])
    · rcases List.mem_cons.mp h with h2 | h2
      · exact Or.inr (by rw [h2])
      · simp at h2
  · rw [List.mem_append] at ht
    rcases ht with h | h
    · split at h
      · exact Or.inl (by rw [List.mem_singleton.mp h])
      · simp at h
    · split at h
      · split at h
        · exact Or.inr (by rw [List.mem_singleton.mp h])
        · simp at h
      · simp at h

/-- C3.  Target classification checks the exact literal-kind marker token
first: an entry whose target token is exactly `rdfs:Literal` (whose prefix
every rdflib graph resolves, since `rdfs` is among the store's initial
bindings) yields the `sh:nodeKind sh:Literal` constraint and neither a
`sh:node` reference nor a `sh:datatype` constraint — in particular no
unresolvable-reference error arises from that target token, whatever the
class-to-modules index contains. -/
theorem claim_C3_literal_marker (propText classUri : String) (g : OntGraph)
    (shapeUri : Term) (c2m : List (String × List String)) (mn sb : String)
    (im : Bool) (uriNs litPfx : List (String × String)) (k : Nat)
    (gps : PropGroups) (pp pl pns rns : String)
    (hm : matchProp propText.toList = some gps)
    (ht : gps.target = "rdfs:Literal")
    (hname : splitColon gps.name = [pp, pl])
    (hp : resolveNamespace pp pl g uriNs litPfx = some pns)
    (hr : resolveNamespace "rdfs" "Literal" g uriNs litPfx = some rns) :
    ∃ ts, processProperty propText classUri g shapeUri c2m mn sb im uriNs litPfx k
        = .ok (ts, k + 1) ∧
      Triple.mk (Term.cnode k) shNodeKindT shLiteralT ∈ ts ∧
      (∀ v, Triple.mk (Term.cnode k) shNodeT v ∉ ts) ∧
      (∀ v, Triple.mk (Term.cnode k) shDatatypeT v ∉ ts) := by
  have hc1 : ("rdfs:Literal".toList.contains ':') = true := by decide
  have hc2 : splitColon "rdfs:Literal" = ["rdfs", "Literal"] := by decide
  have hB : processPropertyB propText classUri g shapeUri c2m mn sb im uriNs litPfx
      (Term.cnode k) =
      .ok ([⟨shapeUri, shPropertyT, Term.cnode k⟩,
            ⟨Term.cnode k, shPathT, Term.uri (pns ++ pl)⟩] ++
           cardTriples (Term.cnode k) gps ++
           [⟨Term.cnode k, shNodeKindT, shLiteralT⟩]) := by
    simp only [processPropertyB, hm, hname, hp, resolveTargetTok, ht, hc1, hc2, hr,
      targetConstraint]
    simp
  refine ⟨[⟨shapeUri, shPropertyT, Term.cnode k⟩,
           ⟨Term.cnode k, shPathT, Term.uri (pns ++ pl)⟩] ++
          cardTriples (Term.cnode k) gps ++
          [⟨Term.cnode k, shNodeKindT, shLiteralT⟩], ?_, ?_, ?_, ?_⟩
  · simp only [processProperty, hB]
  · simp
  · intro v hv
    rw [List.mem_append, List.mem_append] at hv
    rcases hv with (hv | hv) | hv
    · rcases List.mem_cons.mp hv with h | h
      · exact absurd (congrArg Triple.p h) (show ¬ shNodeT = shPropertyT by decide)
      · rcases List.mem_cons.mp h with h2 | h2
        · exact absurd (congrArg Triple.p h2) (show ¬ shNodeT = shPathT by decide)
        · simp at h2
    · rcases cardTriples_pred _ _ _ hv with h | h
      · exact absurd h (show ¬ (Triple.mk (Term.cnode k) shNodeT v).p = shMinCountT
          from by simp only; decide)
      · exact absurd h (show ¬ (Triple.mk (Term.cnode k) shNodeT v).p = shMaxCountT
          from by simp only; decide)
    · have h := List.mem_singleton.mp hv
      exact absurd (congrArg Triple.p h) (show ¬ shNodeT = shNodeKindT by decide)
  · intro v hv
    rw [List.mem_append, List.mem_append] at hv
    rcases hv with (hv | hv) | hv
    · rcases List.mem_cons.mp hv with h | h
      · exact absurd (congrArg Triple.p h) (show ¬ shDatatypeT = shPropertyT by decide)
      · rcases List.mem_cons.mp h with h2 | h2
        · exact absurd (congrArg Triple.p h2) (show ¬ shDatatypeT = shPathT by decide)
        · simp at h2
    · rcases cardTriples_pred _ _ _ hv with h | h
      · exact absurd h (show ¬ (Triple.mk (Term.cnode k) shDatatypeT v).p = shMinCountT
          from by simp only; decide)
      · exact absurd h (show ¬ (Triple.mk (Term.cnode k) shDatatypeT v).p = shMaxCountT
          from by simp only; decide)
    · have h := List.mem_singleton.mp hv
      exact absurd (congrArg Triple.p h) (show ¬ shDatatypeT = shNodeKindT by decide)

/-- A graph binding `ex` and (as every rdflib store does) `rdfs`. -/
def gW3 : OntGraph :=
  { triples := [],
    nsBind := [("ex", "http://ex.org/"),
               ("rdfs", "http://www.w3.org/2000/01/rdf-schema#")] }

/-- Witness for C3 at a concrete entry. -/
theorem claim_C3_witness :
    ∃ ts, processProperty "ex:hasName -[1]-> rdfs:Literal" "http://ex.org/C" gW3
        (Term.uri "http://b/CShape") [] "m" "http://b/" false [] [] 0 = .ok (ts, 1) ∧
      Triple.mk (Term.cnode 0) shNodeKindT shLiteralT ∈ ts ∧
      (∀ v, Triple.mk (Term.cnode 0) shNodeT v ∉ ts) ∧
      (∀ v, Triple.mk (Term.cnode 0) shDatatypeT v ∉ ts) :=
  claim_C3_literal_marker "ex:hasName -[1]-> rdfs:Literal" "http://ex.org/C" gW3
    (Term.uri "http://b/CShape") [] "m" "http://b/" false [] [] 0
    ⟨"ex:hasName", "1", false, none, "rdfs:Literal"⟩ "ex" "hasName"
    "http://ex.org/" "http://www.w3.org/2000/01/rdf-schema#"
    (by decide) rfl (by decide) (by decide) (by decide)

lemma insSorted_ne_nil (x : String) (l : List String) : insSorted x l ≠ [] := by
  cases l with
  | nil => simp [insSorted]
  | cons y ys =>
    unfold insSorted
    split <;> simp

lemma sortStr_ne_nil (l : List String) (h : l ≠ []) : sortStr l ≠ [] := by
  cases l with
  | nil => exact absurd rfl h
  | cons x xs => exact insSorted_ne_nil x (sortStr xs)

lemma lookupC2M_mem (c2m : List (String × List String)) (key : String)
    (v : List String) (h : lookupC2M c2m key = some v) :
    ∃ kv, kv ∈ c2m ∧ kv.2 = v := by
  unfold lookupC2M at h
  cases hf : c2m.find? (fun kv => kv.1 == key) with
  | none => rw [hf] at h; simp at h
  | some kv =>
    rw [hf] at h
    simp only [Option.map_some'] at h
    exact ⟨kv, List.mem_of_find?_eq_some hf, by injection h⟩

lemma xsdPre_contains {l : List Char}
    (h : ("xsd:".toList.isPrefixOf l) = true) : l.contains ':' = true := by
  rcases l with _ | ⟨c1, _ | ⟨c2, _ | ⟨c3, _ | ⟨c4, rest⟩⟩⟩⟩ <;>
    simp only [show "xsd:".toList = ['x', 's', 'd', ':'] from rfl,
      List.isPrefixOf, Bool.and_eq_true, beq_iff_eq, Bool.false_eq_true] at h
  case cons.nil => exact h.2.elim
  case cons.cons.nil => exact h.2.2.elim
  case cons.cons.cons.nil => exact h.2.2.2.elim
  case cons.cons.cons.cons =>
    obtain ⟨h1, h2, h3, h4, -⟩ := h
    subst h4
    have hmem : (':' : Char) ∈ c1 :: c2 :: c3 :: ':' :: rest := by simp
    exact List.elem_iff.mpr hmem

/-- Under a well-formed class-to-modules index (every entry owns at least
one module, as `_build_class_to_modules` guarantees), target
classification itself never fails. -/
lemma targetConstraint_ok_of (b : Term) (target tl tns : String)
    (c2m : List (String × List String)) (mn sb : String) (im : Bool)
    (hwf : ∀ e ∈ c2m, e.2 ≠ []) :
    ∃ t3, targetConstraint b target tl tns c2m mn sb im = .ok t3 := by
  unfold targetConstraint
  split
  · exact ⟨_, rfl⟩
  · split
    · exact ⟨_, rfl⟩
    · cases hc : lookupC2M c2m (tns ++ tl) with
      | none => exact ⟨_, rfl⟩
      | some tmods =>
        have hne : tmods ≠ [] := by
          obtain ⟨kv, hkv, hv⟩ := lookupC2M_mem c2m (tns ++ tl) tmods hc
          rw [← hv]
          exact hwf kv hkv
        by_cases hct : tmods.contains mn = true
        · simp only [hct, if_pos]
          exact ⟨_, rfl⟩
        · cases hss : sortStr tmods with
          | nil => exact absurd hss (sortStr_ne_nil tmods hne)
          | cons x xs =>
            simp only [bfalse hct, if_neg, hss, Bool.false_eq_true, List.head?_cons]
            exact ⟨_, rfl⟩

/-- C4 (amended).  An unqualified TARGET token is resolved via the
observed-URI-suffix fallback over the module's own map: a miss is a hard
error naming the token, the owning class and the property line, and a hit
lets processing succeed (given the property name resolves and the index is
well formed).  An unqualified PROPERTY token is NOT resolved that way:
whenever `prop_name.split(':')` does not give exactly two parts — in
particular for a bare name, which gives one — the tuple unpacking raises a
`ValueError` that mentions neither the token nor the fallback. -/
theorem claim_C4_unqualified (propText classUri : String) (g : OntGraph)
    (shapeUri : Term) (c2m : List (String × List String)) (mn sb : String)
    (im : Bool) (uriNs litPfx : List (String × String)) (k : Nat)
    (gps : PropGroups)
    (hm : matchProp propText.toList = some gps) :
    ((splitColon gps.name).length ≠ 2 →
      processProperty propText classUri g shapeUri c2m mn sb im uriNs litPfx k
        = .error (.unpackErr (splitColon gps.name).length)) ∧
    (∀ pp pl pns, splitColon gps.name = [pp, pl] →
      resolveNamespace pp pl g uriNs litPfx = some pns →
      gps.target.toList.contains ':' = false →
      ((lookupLast uriNs gps.target = none →
        processProperty propText classUri g shapeUri c2m mn sb im uriNs litPfx k
          = .error (.cannotResolve gps.target classUri propText)) ∧
       (∀ tns, lookupLast uriNs gps.target = some tns →
        (∀ e ∈ c2m, e.2 ≠ []) →
        ∃ ts, processProperty propText classUri g shapeUri c2m mn sb im uriNs litPfx k
          = .ok (ts, k + 1)))) := by
  constructor
  · intro hlen
    have hB : processPropertyB propText classUri g shapeUri c2m mn sb im uriNs litPfx
        (Term.cnode k) = .error (.unpackErr (splitColon gps.name).length) := by
      simp only [processPropertyB, hm]
      rcases hsp : splitColon gps.name with _ | ⟨a, _ | ⟨c, _ | ⟨d, rest⟩⟩⟩
      · simp
      · simp
      · rw [hsp] at hlen
        simp at hlen
      · simp
    simp only [processProperty, hB]
  · intro pp pl pns hsp hp hcol
    constructor
    · intro hlook
      have hrt : resolveTargetTok gps.target classUri propText g uriNs litPfx
          = .error (.cannotResolve gps.target classUri propText) := by
        simp only [resolveTargetTok, hcol, hlook]
        simp
      have hB : processPropertyB propText classUri g shapeUri c2m mn sb im uriNs litPfx
          (Term.cnode k) = .error (.cannotResolve gps.target classUri propText) := by
        simp only [processPropertyB, hm, hsp, hp, hrt]
      simp only [processProperty, hB]
    · intro tns hlook hwf
      have hrt : resolveTargetTok gps.target classUri propText g uriNs litPfx
          = .ok (gps.target, tns) := by
        simp only [resolveTargetTok, hcol, hlook]
        simp
      obtain ⟨t3, ht3⟩ := targetConstraint_ok_of (Term.cnode k) gps.target gps.target
        tns c2m mn sb im hwf
      have hB : processPropertyB propText classUri g shapeUri c2m mn sb im uriNs litPfx
          (Term.cnode k) =
          .ok ([⟨shapeUri, shPropertyT, Term.cnode k⟩,
                ⟨Term.cnode k, shPathT, Term.uri (pns ++ pl)⟩] ++
               cardTriples (Term.cnode k) gps ++ [t3]) := by
        simp only [processPropertyB, hm, hsp, hp, hrt, ht3]
      exact ⟨[⟨shapeUri, shPropertyT, Term.cnode k⟩,
              ⟨Term.cnode k, shPathT, Term.uri (pns ++ pl)⟩] ++
             cardTriples (Term.cnode k) gps ++ [t3],
             by simp only [processProperty, hB]⟩

def uriNsC4 : List (String × String) :=
  [("name", "http://ex.org/"), ("T", "http://ex.org/")]

/-- Counterexample for C4 as frozen: a bare PROPERTY token (`name`) whose
entry is present in the observed-URI-suffix fallback is not resolved
through it — the run dies in the tuple unpacking of `prop_name.split(':')`
with a `ValueError` carrying one part, before any resolution is consulted,
instead of resolving the token or raising an error naming it. -/
theorem claim_C4_counterexample :
    lookupLast uriNsC4 "name" = some "http://ex.org/" ∧
    processProperty "name -[1]-> ex:T" "http://ex.org/C" gW5
      (Term.uri "http://b/CShape") [] "m" "http://b/" false uriNsC4 [] 0
      = .error (.unpackErr 1) := by
  constructor
  · decide
  · decide

/-- Witness for the amended C4: a qualified property with a bare target
missing from the fallback raises the token-naming error; a bare target
present in the fallback succeeds; a bare property name raises the
unpacking error. -/
theorem claim_C4_witness :
    processProperty "ex:p -[1]-> Unknown" "http://ex.org/C" gW5
        (Term.uri "http://b/CShape") [] "m" "http://b/" false
        [("p", "http://ex.org/")] [] 0
      = .error (.cannotResolve "Unknown" "http://ex.org/C" "ex:p -[1]-> Unknown") ∧
    (∃ ts, processProperty "ex:p -[1]-> known" "http://ex.org/C" gW5
        (Term.uri "http://b/CShape") [] "m" "http://b/" false
        [("p", "http://ex.org/"), ("known", "http://ex.org/")] [] 0
      = .ok (ts, 1)) ∧
    processProperty "name -[2]-> ex:T" "http://ex.org/C" gW5
        (Term.uri "http://b/CShape") [] "m" "http://b/" false
        [("name", "http://ex.org/")] [] 0
      = .error (.unpackErr 1) := by
  refine ⟨?_, ?_, ?_⟩
  · exact ((claim_C4_unqualified "ex:p -[1]-> Unknown" "http://ex.org/C" gW5
      (Term.uri "http://b/CShape") [] "m" "http://b/" false
      [("p", "http://ex.org/")] [] 0
      ⟨"ex:p", "1", false, none, "Unknown"⟩ (by decide)).2 "ex" "p" "http://ex.org/"
      (by decide) (by decide) (by decide)).1 (by decide)
  · exact ((claim_C4_unqualified "ex:p -[1]-> known" "http://ex.org/C" gW5
      (Term.uri "http://b/CShape") [] "m" "http://b/" false
      [("p", "http://ex.org/"), ("known", "http://ex.org/")] [] 0
      ⟨"ex:p", "1", false, none, "known"⟩ (by decide)).2 "ex" "p" "http://ex.org/"
      (by decide) (by decide) (by decide)).2 "http://ex.org/" (by decide) (by simp)
  · exact (claim_C4_unqualified "name -[2]-> ex:T" "http://ex.org/C" gW5
      (Term.uri "http://b/CShape") [] "m" "http://b/" false
      [("name", "http://ex.org/")] [] 0
      ⟨"name", "2", false, none, "ex:T"⟩ (by decide)).1 (by decide)

/-- The segment list as the CLAIM (C7) words it: split at bullet markers,
discard the first raw segment (header prose), then trim the rest and
discard blank segments.  Stated from the claim's words, for comparison with
the source's `segmentsOf`. -/
def segmentsSpecOrder (s : String) : List String :=
  ((((splitBullets s.toList).map String.mk).drop 1).map pyStrip).filter
    (fun p => !(p == ""))

lemma splitBullets_ne_nil (cs : List Char) : splitBullets cs ≠ [] := by
  unfold splitBullets
  split
  · simp
  · simp
  · split <;> simp
  · simp

lemma map_pyStrip_filter (l : List String) :
    (l.filter (fun p => !(pyStrip p == ""))).map pyStrip =
      (l.map pyStrip).filter (fun p => !(p == "")) := by
  induction l with
  | nil => rfl
  | cons x xs ih =>
    simp only [List.map_cons, List.filter_cons]
    cases hx : (pyStrip x == "") <;> simp [hx, ih]

def descC7 : String :=
  "\n* ex:lost -[1]-> rdfs:Literal The properties that can be used\n* ex:kept -[1]-> ex:T"

/-- Counterexample for C7 as frozen: an annotation containing the marker
phrase whose segment before the first bullet is blank.  The code discards
blank segments BEFORE dropping the first element, so the first genuine
property segment (`ex:lost ...`) is silently dropped, while the claimed
order (drop header first, then filter) keeps it. -/
theorem claim_C7_counterexample :
    containsSub markerPhrase descC7 = true ∧
    (segmentsOf descC7).map pyStrip = ["ex:kept -[1]-> ex:T"] ∧
    segmentsSpecOrder descC7 =
      ["ex:lost -[1]-> rdfs:Literal The properties that can be used",
       "ex:kept -[1]-> ex:T"] := by
  refine ⟨by decide, by decide, by decide⟩

/-- C7 (amended).  The property-segment list is obtained by splitting at
line-start bullet markers, discarding empty/whitespace-only segments, and
THEN discarding the first surviving segment.  When the segment preceding
the first bullet is non-blank this coincides with the claimed
drop-header-then-filter order; when it is blank, the first genuine property
segment is additionally lost. -/
theorem claim_C7_segments (s : String) :
    (pyStrip (((splitBullets s.toList).map String.mk).headI) ≠ "" →
      (segmentsOf s).map pyStrip = segmentsSpecOrder s) ∧
    (pyStrip (((splitBullets s.toList).map String.mk).headI) = "" →
      (segmentsOf s).map pyStrip = (segmentsSpecOrder s).drop 1) := by
  obtain ⟨r0, rs, hsplit⟩ : ∃ r0 rs, splitBullets s.toList = r0 :: rs := by
    cases h : splitBullets s.toList with
    | nil => exact absurd h (splitBullets_ne_nil _)
    | cons a as => exact ⟨a, as, rfl⟩
  have hraw : (splitBullets s.toList).map String.mk =
      String.mk r0 :: rs.map String.mk := by
    rw [hsplit]
    rfl
  have hhead : ((splitBullets s.toList).map String.mk).headI = String.mk r0 := by
    rw [hraw]
    rfl
  have hcode : segmentsOf s =
      ((String.mk r0 :: rs.map String.mk).filter
        (fun p => !(pyStrip p == ""))).drop 1 := by
    unfold segmentsOf
    rw [hraw]
  have hspec : segmentsSpecOrder s =
      ((rs.map String.mk).map pyStrip).filter (fun p => !(p == "")) := by
    unfold segmentsSpecOrder
    rw [hraw]
    rfl
  constructor
  · intro hne
    rw [hhead] at hne
    have hp : (pyStrip (String.mk r0) == "") = false := by
      cases h : (pyStrip (String.mk r0) == "") with
      | false => rfl
      | true => exact absurd (by simpa using h) hne
    rw [hcode, hspec, List.filter_cons]
    simp only [hp, Bool.not_false, if_pos, List.drop_succ_cons, List.drop_zero]
    exact map_pyStrip_filter (rs.map String.mk)
  · intro heq
    rw [hhead] at heq
    have hp : (pyStrip (String.mk r0) == "") = true := by simp [heq]
    rw [hcode, hspec, List.filter_cons]
    simp only [hp, Bool.not_true, Bool.false_eq_true, if_neg, not_false_eq_true]
    rw [List.map_drop, map_pyStrip_filter (rs.map String.mk)]

/-- Witness for the amended C7: with a non-blank header both orders agree;
with a blank header the code's list is the claimed list minus its first
genuine segment. -/
theorem claim_C7_witness :
    ((segmentsOf "Header\n* a -[1]-> b").map pyStrip
      = segmentsSpecOrder "Header\n* a -[1]-> b") ∧
    ((segmentsOf "\n* a -[1]-> b\n* c -[1]-> d").map pyStrip
      = (segmentsSpecOrder "\n* a -[1]-> b\n* c -[1]-> d").drop 1) :=
  ⟨(claim_C7_segments "Header\n* a -[1]-> b").1 (by decide),
   (claim_C7_segments "\n* a -[1]-> b\n* c -[1]-> d").2 (by decide)⟩

lemma takeWhile_append_mid {p : Char → Bool} (l t : List Char)
    (h : l.dropWhile p ≠ []) :
    (l ++ t).takeWhile p = l.takeWhile p ∧
    (l ++ t).dropWhile p = l.dropWhile p ++ t := by
  induction l with
  | nil => exact absurd rfl h
  | cons c cs ih =>
    cases hc : p c with
    | true =>
      have h2 : cs.dropWhile p ≠ [] := by
        intro h3
        apply h
        simp [List.dropWhile_cons, hc, h3]
      obtain ⟨h4, h5⟩ := ih h2
      constructor <;> simp [List.takeWhile_cons, List.dropWhile_cons, hc, h4, h5]
    | false =>
      constructor <;> simp [List.takeWhile_cons, List.dropWhile_cons, hc]

lemma takeWhile_append_all {p : Char → Bool} (l t : List Char)
    (h : l.dropWhile p = []) :
    (l ++ t).takeWhile p = l ++ t.takeWhile p ∧
    (l ++ t).dropWhile p = t.dropWhile p := by
  induction l with
  | nil => simp
  | cons c cs ih =>
    cases hc : p c with
    | false => simp [List.dropWhile_cons, hc] at h
    | true =>
      have h2 : cs.dropWhile p = [] := by simpa [List.dropWhile_cons, hc] using h
      obtain ⟨h4, h5⟩ := ih h2
      constructor <;> simp [List.takeWhile_cons, List.dropWhile_cons, hc, h4, h5]

lemma stripLit_append (pat l t r : List Char) (h : stripLit pat l = some r) :
    stripLit pat (l ++ t) = some (r ++ t) := by
  induction pat generalizing l with
  | nil =>
    simp only [stripLit, Option.some.injEq] at h
    simp [stripLit, h]
  | cons a as ih =>
    cases l with
    | nil => simp [stripLit] at h
    | cons c cs =>
      simp only [List.cons_append, stripLit] at h ⊢
      by_cases hc : c = a
      · rw [if_pos hc] at h ⊢
        exact ih cs h
      · rw [if_neg hc] at h
        simp at h

lemma stripLit_some_cons (a : Char) (pat l r : List Char)
    (h : stripLit (a :: pat) l = some r) : ∃ l2, l = a :: l2 := by
  cases l with
  | nil => simp [stripLit] at h
  | cons c cs =>
    simp only [stripLit] at h
    by_cases hc : c = a
    · exact ⟨cs, by rw [hc]⟩
    · rw [if_neg hc] at h
      simp at h

lemma parseCard_append (l t r : List Char) (s : String)
    (h : parseCard l = some (s, r)) (hr : r ≠ []) :
    parseCard (l ++ t) = some (s, r ++ t) := by
  simp only [parseCard] at h ⊢
  cases hd : (l.takeWhile digitChar).isEmpty with
  | false =>
    rw [hd] at h
    simp only [Bool.false_eq_true, if_false, Option.some.injEq, Prod.mk.injEq] at h
    have hdd : l.dropWhile digitChar ≠ [] := by
      rw [h.2]
      exact hr
    obtain ⟨h4, h5⟩ := takeWhile_append_mid l t hdd
    rw [h4, h5, hd]
    simp only [Bool.false_eq_true, if_false, Option.some.injEq, Prod.mk.injEq]
    exact ⟨h.1, by rw [h.2]⟩
  | true =>
    rw [hd] at h
    simp only [if_pos] at h
    split at h
    · rename_i r2 heq
      simp only [Option.some.injEq, Prod.mk.injEq] at h
      obtain ⟨hs, hr2⟩ := h
      subst hs
      subst hr2
      simp [List.cons_append, List.takeWhile_cons,
        show digitChar '*' = false from by decide]
    · rename_i r2 heq
      simp only [Option.some.injEq, Prod.mk.injEq] at h
      obtain ⟨hs, hr2⟩ := h
      subst hs
      subst hr2
      simp [List.cons_append, List.takeWhile_cons,
        show digitChar 'N' = false from by decide]
    · simp at h

lemma parseCard_none_head (c : Char) (cs t : List Char)
    (h : parseCard (c :: cs) = none) : parseCard ((c :: cs) ++ t) = none := by
  simp only [parseCard] at h ⊢
  cases hdc : digitChar c with
  | true =>
    rw [List.takeWhile_cons, hdc] at h
    simp at h
  | false =>
    rw [List.takeWhile_cons, hdc] at h
    simp only [if_neg, List.isEmpty_nil, if_pos, Bool.false_eq_true] at h
    rw [List.cons_append, List.takeWhile_cons, hdc]
    simp only [Bool.false_eq_true, if_false, List.isEmpty_nil, if_pos]
    split
    · rename_i r2 heq
      rw [List.cons.injEq] at heq
      rw [heq.1] at h
      simp at h
    · rename_i r2 heq
      rw [List.cons.injEq] at heq
      rw [heq.1] at h
      simp at h
    · rfl

lemma stripLit_cons_ne (a : Char) (pat : List Char) (c : Char) (cs : List Char)
    (h : c ≠ a) : stripLit (a :: pat) (c :: cs) = none := by
  simp [stripLit, if_neg h]

lemma sepSplit_nodot (a : Char) (r2t : List Char) (ha : a ≠ '.') :
    sepSplit (a :: r2t) = (false, a :: r2t) := by
  unfold sepSplit
  split
  · rename_i r heq
    rw [List.cons.injEq] at heq
    exact absurd heq.1 ha
  · rfl

lemma sepSplit_dot_ne (b : Char) (r2tt : List Char) (hb : b ≠ '.') :
    sepSplit ('.' :: b :: r2tt) = (false, '.' :: b :: r2tt) := by
  unfold sepSplit
  split
  · rename_i r heq
    rw [List.cons.injEq, List.cons.injEq] at heq
    exact absurd heq.2.1 hb
  · rfl

lemma parseCard_cons_none (c : Char) (cs : List Char) (hd : digitChar c = false)
    (h1 : c ≠ '*') (h2 : c ≠ 'N') : parseCard (c :: cs) = none := by
  simp only [parseCard, List.takeWhile_cons, hd, Bool.false_eq_true, if_false,
    List.isEmpty_nil, if_pos]
  split
  · rename_i r heq
    rw [List.cons.injEq] at heq
    exact absurd heq.1 h1
  · rename_i r heq
    rw [List.cons.injEq] at heq
    exact absurd heq.1 h2
  · rfl

lemma maxSplit_some (r3 r4 : List Char) (cm : String)
    (h : parseCard r3 = some (cm, r4)) : maxSplit r3 = (some cm, r4) := by
  simp [maxSplit, h]

lemma maxSplit_none (r3 : List Char) (h : parseCard r3 = none) :
    maxSplit r3 = (none, r3) := by
  simp [maxSplit, h]

/-- Appending text to a successfully matched segment cannot change the
match: `re.match` is anchored at the start only, and every group is closed
off by a delimiter — the final target group by the hypothesis that the
appended text does not begin with a token character. -/
lemma matchProp_append (cs t : List Char) (gps : PropGroups)
    (h : matchProp cs = some gps)
    (ht : ∀ c, t.head? = some c → tokChar c = false) :
    matchProp (cs ++ t) = some gps := by
  simp only [matchProp] at h
  cases he1 : (cs.takeWhile tokChar).isEmpty with
  | true => rw [he1] at h; simp at h
  | false =>
    rw [he1] at h
    simp only [Bool.false_eq_true, if_false] at h
    cases h1 : stripLit [' ', '-', '['] (cs.dropWhile tokChar) with
    | none => rw [h1] at h; simp at h
    | some r1 =>
      rw [h1] at h
      simp only at h
      cases h2 : parseCard r1 with
      | none => rw [h2] at h; simp at h
      | some pr =>
        obtain ⟨cmin, r2⟩ := pr
        rw [h2] at h
        simp only at h
        cases h3 : stripLit [']', '-', '>'] (maxSplit (sepSplit r2).2).2 with
        | none => rw [h3] at h; simp at h
        | some r5 =>
          rw [h3] at h
          simp only at h
          cases he2 : (r5.takeWhile pyWsChar).isEmpty with
          | true => rw [he2] at h; simp at h
          | false =>
            rw [he2] at h
            simp only [Bool.false_eq_true, if_false] at h
            cases he3 : ((r5.dropWhile pyWsChar).takeWhile tokChar).isEmpty with
            | true => rw [he3] at h; simp at h
            | false =>
              rw [he3] at h
              simp only [Bool.false_eq_true, if_false] at h
              have hdne : cs.dropWhile tokChar ≠ [] := by
                obtain ⟨l2, hl2⟩ := stripLit_some_cons ' ' ['-', '['] _ _ h1
                rw [hl2]
                simp
              obtain ⟨htk, hdk⟩ := takeWhile_append_mid cs t hdne
              have h1' := stripLit_append [' ', '-', '['] (cs.dropWhile tokChar) t r1 h1
              rw [← hdk] at h1'
              have hr2ne : r2 ≠ [] := by
                intro h0
                subst h0
                rw [show (maxSplit (sepSplit ([] : List Char)).2).2 = [] from by decide] at h3
                simp [stripLit] at h3
              obtain ⟨sflag, r3, hsep, hsep'⟩ :
                  ∃ sflag r3, sepSplit r2 = (sflag, r3) ∧
                    sepSplit (r2 ++ t) = (sflag, r3 ++ t) := by
                rcases r2 with _ | ⟨a, r2t⟩
                · exact absurd rfl hr2ne
                · by_cases ha : a = '.'
                  · subst ha
                    rcases r2t with _ | ⟨b, r2tt⟩
                    · exfalso
                      rw [show (maxSplit (sepSplit ['.']).2).2 = ['.'] from by decide] at h3
                      simp [stripLit] at h3
                    · by_cases hb : b = '.'
                      · subst hb
                        exact ⟨true, r2tt, rfl, rfl⟩
                      · exfalso
                        have hcomp : (maxSplit (sepSplit ('.' :: b :: r2tt)).2).2
                            = '.' :: b :: r2tt := by
                          rw [sepSplit_dot_ne b r2tt hb]
                          simp [maxSplit_none _ (parseCard_cons_none '.' (b :: r2tt)
                            (by decide) (by decide) (by decide))]
                        rw [hcomp] at h3
                        rw [stripLit_cons_ne ']' ['-', '>'] '.' (b :: r2tt) (by decide)] at h3
                        exact Option.noConfusion h3
                  · refine ⟨false, a :: r2t, sepSplit_nodot a r2t ha, ?_⟩
                    rw [List.cons_append]
                    exact sepSplit_nodot a (r2t ++ t) ha
              obtain ⟨cmaxv, r4, hmax, hmax', h3'⟩ :
                  ∃ cmaxv r4, maxSplit r3 = (cmaxv, r4) ∧
                    maxSplit (r3 ++ t) = (cmaxv, r4 ++ t) ∧
                    stripLit [']', '-', '>'] r4 = some r5 := by
                simp only [hsep] at h3
                cases h4 : parseCard r3 with
                | some pr2 =>
                  obtain ⟨cm, r4⟩ := pr2
                  have hm1 : maxSplit r3 = (some cm, r4) := maxSplit_some r3 r4 cm h4
                  simp only [hm1] at h3
                  have hr4ne : r4 ≠ [] := by
                    obtain ⟨l2, hl2⟩ := stripLit_some_cons ']' ['-', '>'] _ _ h3
                    rw [hl2]
                    simp
                  exact ⟨some cm, r4, hm1,
                    maxSplit_some (r3 ++ t) (r4 ++ t) cm
                      (parseCard_append r3 t r4 cm h4 hr4ne), h3⟩
                | none =>
                  have hm1 : maxSplit r3 = (none, r3) := maxSplit_none r3 h4
                  simp only [hm1] at h3
                  obtain ⟨r3t, hr3⟩ := stripLit_some_cons ']' ['-', '>'] _ _ h3
                  have h4' : parseCard (r3 ++ t) = none := by
                    rw [hr3] at h4 ⊢
                    exact parseCard_none_head ']' r3t t h4
                  exact ⟨none, r3, hm1, maxSplit_none (r3 ++ t) h4', h3⟩
              have hr6ne : r5.dropWhile pyWsChar ≠ [] := by
                intro h0
                rw [h0] at he3
                simp at he3
              obtain ⟨hw1, hw2⟩ := takeWhile_append_mid r5 t hr6ne
              have htg : ((r5.dropWhile pyWsChar ++ t).takeWhile tokChar)
                  = (r5.dropWhile pyWsChar).takeWhile tokChar := by
                cases hdt : (r5.dropWhile pyWsChar).dropWhile tokChar with
                | nil =>
                  obtain ⟨ha1, _⟩ := takeWhile_append_all (r5.dropWhile pyWsChar) t hdt
                  rw [ha1]
                  have h6 : (r5.dropWhile pyWsChar).takeWhile tokChar
                      = r5.dropWhile pyWsChar := by
                    have h8 := List.takeWhile_append_dropWhile (p := tokChar)
                      (l := r5.dropWhile pyWsChar)
                    rw [hdt, List.append_nil] at h8
                    exact h8
                  have h7 : t.takeWhile tokChar = [] := by
                    cases t with
                    | nil => rfl
                    | cons c ct =>
                      rw [List.takeWhile_cons, ht c rfl]
                      simp
                  rw [h7, h6, List.append_nil]
                | cons x xs =>
                  exact (takeWhile_append_mid (r5.dropWhile pyWsChar) t
                    (by rw [hdt]; simp)).1
              simp only [matchProp]
              rw [htk, he1]
              simp only [Bool.false_eq_true, if_false]
              rw [hdk, stripLit_append [' ', '-', '['] (cs.dropWhile tokChar) t r1 h1]
              simp only
              rw [parseCard_append r1 t r2 cmin h2 hr2ne]
              simp only [hsep', hmax']
              rw [stripLit_append [']', '-', '>'] r4 t r5 h3']
              simp only
              rw [hw1, he2]
              simp only [Bool.false_eq_true, if_false]
              rw [hw2, htg, he3]
              simp only [Bool.false_eq_true, if_false]
              rw [← h]
              simp only [hsep, hmax]

lemma resolveTargetTok_no_invalid (target c p : String) (g : OntGraph)
    (u l : List (String × String)) (e : PErr)
    (h : resolveTargetTok target c p g u l = .error e) :
    ∀ x y, e ≠ .invalidFormat x y := by
  unfold resolveTargetTok at h
  split at h
  · split at h
    · split at h
      · simp only [Except.error.injEq] at h
        subst h
        intro x y
        simp
      · simp at h
    · simp only [Except.error.injEq] at h
      subst h
      intro x y
      simp
  · split at h
    · simp only [Except.error.injEq] at h
      subst h
      intro x y
      simp
    · simp at h

lemma targetConstraint_no_invalid (b : Term) (target tl tns : String)
    (c2m : List (String × List String)) (mn sb : String) (im : Bool) (e : PErr)
    (h : targetConstraint b target tl tns c2m mn sb im = .error e) :
    ∀ x y, e ≠ .invalidFormat x y := by
  unfold targetConstraint at h
  split at h
  · simp at h
  · split at h
    · simp at h
    · split at h
      · split at h
        · simp only [Except.error.injEq] at h
          subst h
          intro x y
          simp
        · simp at h
      · simp at h

/-- C10.  The property-line pattern is matched only against the beginning
of a segment (`re.match`): a segment with no matching prefix raises the
grammar error verbatim; a segment whose initial portion matches raises no
grammar error whatever else happens; and appending trailing text (not
starting with a token character, i.e. beyond the greedy target token) to a
matching segment leaves the match and all its groups unchanged. -/
theorem claim_C10_trailing_text (s : String) (classUri : String) (g : OntGraph)
    (shapeUri : Term) (c2m : List (String × List String)) (mn sb : String)
    (im : Bool) (uriNs litPfx : List (String × String)) (k : Nat) :
    (matchProp s.toList = none →
      processProperty s classUri g shapeUri c2m mn sb im uriNs litPfx k
        = .error (.invalidFormat classUri s)) ∧
    (∀ gps, matchProp s.toList = some gps →
      ∀ x y, processProperty s classUri g shapeUri c2m mn sb im uriNs litPfx k
        ≠ .error (.invalidFormat x y)) ∧
    (∀ gps t, matchProp s.toList = some gps →
      (∀ c, t.head? = some c → tokChar c = false) →
      matchProp (s.toList ++ t) = some gps) := by
  refine ⟨?_, ?_, ?_⟩
  · intro hnone
    have hB : processPropertyB s classUri g shapeUri c2m mn sb im uriNs litPfx
        (Term.cnode k) = .error (.invalidFormat classUri s) := by
      simp only [processPropertyB, hnone]
    simp only [processProperty, hB]
  · intro gps hm x y hcontra
    simp only [processProperty] at hcontra
    cases hB : processPropertyB s classUri g shapeUri c2m mn sb im uriNs litPfx
        (Term.cnode k) with
    | ok ts => rw [hB] at hcontra; simp at hcontra
    | error e =>
      rw [hB] at hcontra
      simp only [Except.error.injEq] at hcontra
      subst hcontra
      simp only [processPropertyB, hm] at hB
      split at hB
      · split at hB
        · simp at hB
        · split at hB
          · rename_i e2 he2
            simp only [Except.error.injEq] at hB
            exact resolveTargetTok_no_invalid _ _ _ _ _ _ _ he2 x y hB
          · split at hB
            · rename_i e3 he3
              simp only [Except.error.injEq] at hB
              exact targetConstraint_no_invalid _ _ _ _ _ _ _ _ _ he3 x y hB
            · simp at hB
      · simp at hB
  · intro gps t hm hhd
    exact matchProp_append s.toList t gps hm hhd

/-- Witness for C10: a grammar error on a prefix-less segment, and a
concrete match preserved under trailing text. -/
theorem claim_C10_witness :
    processProperty "nonsense segment" "http://ex.org/C" gW5 (Term.uri "x") []
      "m" "b" false [] [] 0
      = .error (.invalidFormat "http://ex.org/C" "nonsense segment") ∧
    matchProp ("ex:p -[1]-> rdfs:Literal".toList ++ " extra trailing!!".toList)
      = some ⟨"ex:p", "1", false, none, "rdfs:Literal"⟩ := by
  constructor
  · exact (claim_C10_trailing_text "nonsense segment" "http://ex.org/C" gW5
      (Term.uri "x") [] "m" "b" false [] [] 0).1 (by decide)
  · exact (claim_C10_trailing_text "ex:p -[1]-> rdfs:Literal" "c" gW5
      (Term.uri "x") [] "m" "b" false [] [] 0).2.2
      ⟨"ex:p", "1", false, none, "rdfs:Literal"⟩ " extra trailing!!".toList
      (by decide)
      (by
        intro c hc
        simp only [show (" extra trailing!!".toList).head? = some ' ' from rfl,
          Option.some.injEq] at hc
        rw [← hc]
        decide)

lemma refTargets_ok_mem (g : OntGraph) (u l : List (String × String))
    (segs : List String) (refs : List String)
    (h : refTargets g u l segs = .ok refs) :
    ∀ x, x ∈ refs ↔ ∃ s ∈ segs, segRefTarget g u l s = .ok (some x) := by
  induction segs generalizing refs with
  | nil =>
    simp only [refTargets, Except.ok.injEq] at h
    subst h
    simp
  | cons s rest ih =>
    simp only [refTargets] at h
    cases h1 : segRefTarget g u l s with
    | error e => rw [h1] at h; simp at h
    | ok topt =>
      rw [h1] at h
      simp only at h
      cases h2 : refTargets g u l rest with
      | error e => rw [h2] at h; simp at h
      | ok r =>
        rw [h2] at h
        simp only [Except.ok.injEq] at h
        subst h
        intro x
        rw [List.mem_append]
        constructor
        · rintro (hx | hx)
          · rcases topt with _ | v
            · simp at hx
            · simp only [Option.toList_some, List.mem_singleton] at hx
              subst hx
              exact ⟨s, by simp, h1⟩
          · obtain ⟨s2, hs2, hres⟩ := (ih r h2 x).mp hx
            exact ⟨s2, by simp [hs2], hres⟩
        · rintro ⟨s2, hs2, hres⟩
          rcases List.mem_cons.mp hs2 with h3 | h3
          · subst h3
            rw [h1] at hres
            have h4 : topt = some x := by injection hres
            rw [h4]
            simp
          · exact Or.inr ((ih r h2 x).mpr ⟨s2, h3, hres⟩)

lemma processPropertyB_no_targetClass (propText classUri : String) (g : OntGraph)
    (shapeUri : Term) (c2m : List (String × List String)) (mn sb : String)
    (im : Bool) (uriNs litPfx : List (String × String)) (b : Term)
    (ts : List Triple)
    (h : processPropertyB propText classUri g shapeUri c2m mn sb im uriNs litPfx b
      = .ok ts) :
    ∀ tr ∈ ts, tr.p ≠ shTargetClassT := by
  obtain ⟨gps, pathObj, lastT, _, _, hlp, hts⟩ :=
    processPropertyB_ok_shape propText classUri g shapeUri c2m mn sb im uriNs litPfx
      b ts h
  subst hts
  intro tr htr
  rw [List.mem_append, List.mem_append] at htr
  rcases htr with (h1 | h1) | h1
  · rcases List.mem_cons.mp h1 with h2 | h2
    · intro hc
      rw [h2] at hc
      exact absurd hc (show shPropertyT ≠ shTargetClassT by decide)
    · rcases List.mem_cons.mp h2 with h3 | h3
      · intro hc
        rw [h3] at hc
        exact absurd hc (show shPathT ≠ shTargetClassT by decide)
      · simp at h3
  · rcases cardTriples_pred _ _ _ h1 with h2 | h2 <;>
      · intro hc
        rw [h2] at hc
        revert hc
        decide
  · have h2 := List.mem_singleton.mp h1
    subst h2
    rcases hlp with h3 | h3 | h3 <;>
      · intro hc
        rw [h3] at hc
        revert hc
        decide

lemma processSegs_no_targetClass (classUri : String) (g : OntGraph)
    (shapeUri : Term) (c2m : List (String × List String)) (mn sb : String)
    (im : Bool) (uriNs litPfx : List (String × String))
    (segs : List String) (k : Nat) (ts : List Triple) (k2 : Nat)
    (h : processSegs classUri g shapeUri c2m mn sb im uriNs litPfx segs k
      = .ok (ts, k2)) :
    ∀ tr ∈ ts, tr.p ≠ shTargetClassT := by
  induction segs generalizing k ts k2 with
  | nil =>
    simp only [processSegs, Except.ok.injEq, Prod.mk.injEq] at h
    rw [← h.1]
    simp
  | cons s rest ih =>
    simp only [processSegs] at h
    cases h1 : processProperty (pyStrip s) classUri g shapeUri c2m mn sb im uriNs
        litPfx k with
    | error e => rw [h1] at h; simp at h
    | ok tk =>
      rw [h1] at h
      simp only at h
      cases h2 : processSegs classUri g shapeUri c2m mn sb im uriNs litPfx rest
          tk.2 with
      | error e => rw [h2] at h; simp at h
      | ok tk2 =>
        rw [h2] at h
        simp only [Except.ok.injEq, Prod.mk.injEq] at h
        rw [← h.1]
        intro tr htr
        rw [List.mem_append] at htr
        rcases htr with h3 | h3
        · have hB : processPropertyB (pyStrip s) classUri g shapeUri c2m mn sb im
              uriNs litPfx (Term.cnode k) = .ok tk.1 := by
            simp only [processProperty] at h1
            cases hB0 : processPropertyB (pyStrip s) classUri g shapeUri c2m mn sb
                im uriNs litPfx (Term.cnode k) with
            | error e => rw [hB0] at h1; simp at h1
            | ok ts0 =>
              rw [hB0] at h1
              simp only [Except.ok.injEq] at h1
              rw [← h1]
          exact processPropertyB_no_targetClass _ _ _ _ _ _ _ _ _ _ _ _ hB tr h3
        · exact ih tk.2 tk2.1 tk2.2 (by rw [h2]) tr h3

/-- C2 (amended).  In the single-fragment case the root set is the set of
described classes never referenced as a resolvable class target by ANY
described class's property entries — a class's own entries included, so a
class whose only occurrences as a target are in its own property list is
NOT a root; and a shape receives the `sh:targetClass` binding exactly when
its class is in the root set. -/
theorem claim_C2_root_detection :
    (∀ (g : OntGraph) (described L : List String),
      detectRootClasses g described = .ok L →
      ∀ c, c ∈ L ↔ (c ∈ described ∧
        ¬ ∃ pr ∈ descPairs g, ∃ seg ∈ segmentsOf pr.2,
          segRefTarget g (buildUriNsMap g) (extractPfxFromLits g) seg
            = .ok (some c))) ∧
    (∀ (g : OntGraph) (cls : Term) (c2m : List (String × List String))
      (mn sb : String) (im : Bool) (uriNs litPfx : List (String × String))
      (rootSet : List String) (k : Nat) (ts : List Triple) (k2 : Nat) (d : Term),
      graphValue g cls dcDescriptionT = some d →
      termStr d ≠ "" →
      containsSub markerPhrase (termStr d) = true →
      processClass g cls c2m mn sb im uriNs litPfx rootSet k = .ok (ts, k2) →
      (Triple.mk (shapeUriFor sb im mn (termStr cls)) shTargetClassT cls ∈ ts ↔
        rootSet.contains (termStr cls) = true)) := by
  constructor
  · intro g described L h c
    unfold detectRootClasses at h
    cases h1 : refTargets g (buildUriNsMap g) (extractPfxFromLits g) (allSegs g) with
    | error e => rw [h1] at h; simp at h
    | ok refs =>
      rw [h1] at h
      simp only [Except.ok.injEq] at h
      subst h
      rw [List.mem_filter]
      have hrefs := refTargets_ok_mem g (buildUriNsMap g) (extractPfxFromLits g)
        (allSegs g) refs h1 c
      constructor
      · rintro ⟨hc1, hc2⟩
        refine ⟨hc1, ?_⟩
        rintro ⟨pr, hpr, seg, hseg, hres⟩
        have hmem : c ∈ refs := hrefs.mpr ⟨seg, by
          unfold allSegs
          rw [List.mem_flatMap]
          exact ⟨pr, hpr, hseg⟩, hres⟩
        have hb : refs.contains c = true := List.elem_iff.mpr hmem
        rw [hb] at hc2
        simp at hc2
      · rintro ⟨hc1, hc2⟩
        refine ⟨hc1, ?_⟩
        cases hb : refs.contains c with
        | false => simp
        | true =>
          exfalso
          obtain ⟨seg, hseg, hres⟩ := hrefs.mp (List.elem_iff.mp hb)
          unfold allSegs at hseg
          rw [List.mem_flatMap] at hseg
          obtain ⟨pr, hpr, hseg2⟩ := hseg
          exact hc2 ⟨pr, hpr, seg, hseg2, hres⟩
  · intro g cls c2m mn sb im uriNs litPfx rootSet k ts k2 d hv hne hmark h
    simp only [processClass, hv, hne, hmark] at h
    simp only [if_neg hne, Bool.not_true, Bool.false_eq_true, if_false] at h
    cases h2 : processSegs (termStr cls) g
        (shapeUriFor sb im mn (termStr cls)) c2m mn sb im uriNs litPfx
        (segmentsOf (termStr d)) k with
    | error e => rw [h2] at h; simp at h
    | ok tk =>
      rw [h2] at h
      simp only [Except.ok.injEq, Prod.mk.injEq] at h
      rw [← h.1]
      have hpred := processSegs_no_targetClass _ _ _ _ _ _ _ _ _ _ _ _ _ h2
      constructor
      · intro hmem
        rw [List.mem_append, List.mem_append] at hmem
        rcases hmem with (h3 | h3) | h3
        · rw [List.mem_singleton] at h3
          exact absurd (congrArg Triple.p h3)
            (show ¬ shTargetClassT = rdfTypeT by decide)
        · cases hb : rootSet.contains (termStr cls) with
          | true => rfl
          | false =>
            rw [hb] at h3
            simp at h3
        · exact absurd rfl (hpred _ h3)
      · intro hb
        rw [List.mem_append, List.mem_append]
        left
        right
        rw [hb]
        simp

def gC2 : OntGraph :=
  { triples := [⟨.uri "http://ex.org/A", rdfTypeT, owlClassT⟩,
                ⟨.uri "http://ex.org/A", dcDescriptionT,
                 .lit "The properties that can be used:\n* ex:p -[1]-> ex:A"⟩],
    nsBind := [("ex", "http://ex.org/")] }

/-- Counterexample for C2 as frozen: a single described class `ex:A` whose
only occurrence as a target is in its OWN property list (there is no other
class at all), yet root detection returns the empty set — the claim says
such a class is in the root set. -/
theorem claim_C2_counterexample :
    descPairs gC2 = [(Term.uri "http://ex.org/A",
      "The properties that can be used:\n* ex:p -[1]-> ex:A")] ∧
    detectRootClasses gC2 ["http://ex.org/A"] = .ok [] ∧
    resolveRootClassUris [("test", gC2)]
      (buildClassToModules [("test", gC2)]) false = .ok [] := by
  refine ⟨by decide, by decide, by decide⟩

/-- Witness for the amended C2 at the concrete self-referencing graph: the
characterization instantiated at `ex:A`, and the absence of a
`sh:targetClass` binding on concrete shapes. -/
theorem claim_C2_witness :
    (("http://ex.org/A" ∈ ([] : List String)) ↔
      ("http://ex.org/A" ∈ ["http://ex.org/A"] ∧
        ¬ ∃ pr ∈ descPairs gC2, ∃ seg ∈ segmentsOf pr.2,
          segRefTarget gC2 (buildUriNsMap gC2) (extractPfxFromLits gC2) seg
            = .ok (some "http://ex.org/A"))) := by
  exact (claim_C2_root_detection.1 gC2 ["http://ex.org/A"] [] (by decide))
    "http://ex.org/A"

lemma processSegs_ok_each (classUri : String) (g : OntGraph) (shapeUri : Term)
    (c2m : List (String × List String)) (mn sb : String) (im : Bool)
    (uriNs litPfx : List (String × String)) (segs : List String) (k : Nat)
    (tk : List Triple × Nat)
    (h : processSegs classUri g shapeUri c2m mn sb im uriNs litPfx segs k
      = .ok tk) :
    ∀ s ∈ segs, ∃ k1 tk1, processProperty (pyStrip s) classUri g shapeUri c2m mn
      sb im uriNs litPfx k1 = .ok tk1 := by
  induction segs generalizing k tk with
  | nil => simp
  | cons s2 rest ih =>
    simp only [processSegs] at h
    cases h1 : processProperty (pyStrip s2) classUri g shapeUri c2m mn sb im uriNs
        litPfx k with
    | error e => rw [h1] at h; simp at h
    | ok tk1 =>
      rw [h1] at h
      simp only at h
      cases h2 : processSegs classUri g shapeUri c2m mn sb im uriNs litPfx rest
          tk1.2 with
      | error e => rw [h2] at h; simp at h
      | ok tk2 =>
        intro s3 hs3
        rcases List.mem_cons.mp hs3 with h3 | h3
        · subst h3
          exact ⟨k, tk1, h1⟩
        · exact ih tk1.2 tk2 h2 s3 h3

lemma processProperty_ok_match (propText classUri : String) (g : OntGraph)
    (shapeUri : Term) (c2m : List (String × List String)) (mn sb : String)
    (im : Bool) (uriNs litPfx : List (String × String)) (k : Nat)
    (tk : List Triple × Nat)
    (h : processProperty propText classUri g shapeUri c2m mn sb im uriNs litPfx k
      = .ok tk) :
    matchProp propText.toList ≠ none := by
  intro hnone
  have hB : processPropertyB propText classUri g shapeUri c2m mn sb im uriNs litPfx
      (Term.cnode k) = .error (.invalidFormat classUri propText) := by
    simp only [processPropertyB, hnone]
  simp only [processProperty, hB] at h
  exact Except.noConfusion h

lemma descPairs_mem (g : OntGraph) (pr : Term × String)
    (hpr : pr ∈ descPairs g) :
    pr.1 ∈ subjectsOfType g owlClassT ∧
    ∃ d, graphValue g pr.1 dcDescriptionT = some d ∧ termStr d = pr.2 ∧
      pr.2 ≠ "" ∧ containsSub markerPhrase pr.2 = true := by
  unfold descPairs at hpr
  rw [List.mem_filterMap] at hpr
  obtain ⟨cls, hcls, hf⟩ := hpr
  cases hv : graphValue g cls dcDescriptionT with
  | none => rw [hv] at hf; simp at hf
  | some d =>
    rw [hv] at hf
    simp only at hf
    by_cases hcond : (!(termStr d == "") && containsSub markerPhrase (termStr d))
        = true
    · rw [if_pos hcond] at hf
      have hpr2 : pr = (cls, termStr d) := by injection hf.symm
      subst hpr2
      refine ⟨hcls, d, hv, rfl, ?_, (Bool.and_eq_true_iff.mp hcond).2⟩
      · have h1 := (Bool.and_eq_true_iff.mp hcond).1
        intro h2
        have h3 : termStr d = "" := h2
        rw [h3] at h1
        simp at h1
    · rw [if_neg hcond] at hf
      simp at hf

lemma processClass_ok_to_segs (g : OntGraph) (cls : Term)
    (c2m : List (String × List String)) (mn sb : String) (im : Bool)
    (uriNs litPfx : List (String × String)) (rootSet : List String) (k : Nat)
    (tk : List Triple × Nat) (d : Term)
    (hv : graphValue g cls dcDescriptionT = some d)
    (hne : termStr d ≠ "")
    (hmark : containsSub markerPhrase (termStr d) = true)
    (h : processClass g cls c2m mn sb im uriNs litPfx rootSet k = .ok tk) :
    ∃ tk2, processSegs (termStr cls) g (shapeUriFor sb im mn (termStr cls)) c2m mn
      sb im uriNs litPfx (segmentsOf (termStr d)) k = .ok tk2 := by
  simp only [processClass, hv, hmark] at h
  simp only [if_neg hne, Bool.not_true, Bool.false_eq_true, if_false] at h
  cases h2 : processSegs (termStr cls) g (shapeUriFor sb im mn (termStr cls)) c2m
      mn sb im uriNs litPfx (segmentsOf (termStr d)) k with
  | error e => rw [h2] at h; simp at h
  | ok tk2 => exact ⟨tk2, rfl⟩

lemma processClasses_ok_each (g : OntGraph) (c2m : List (String × List String))
    (mn sb : String) (im : Bool) (uriNs litPfx : List (String × String))
    (rootSet : List String) (clsList : List Term) (k : Nat)
    (tk : List Triple × Nat)
    (h : processClasses g c2m mn sb im uriNs litPfx rootSet clsList k = .ok tk) :
    ∀ cls ∈ clsList, ∃ k1 tk1, processClass g cls c2m mn sb im uriNs litPfx
      rootSet k1 = .ok tk1 := by
  induction clsList generalizing k tk with
  | nil => simp
  | cons c rest ih =>
    simp only [processClasses] at h
    cases h1 : processClass g c c2m mn sb im uriNs litPfx rootSet k with
    | error e => rw [h1] at h; simp at h
    | ok tk1 =>
      rw [h1] at h
      simp only at h
      cases h2 : processClasses g c2m mn sb im uriNs litPfx rootSet rest tk1.2 with
      | error e => rw [h2] at h; simp at h
      | ok tk2 =>
        intro cls hcls
        rcases List.mem_cons.mp hcls with h3 | h3
        · subst h3
          exact ⟨k, tk1, h1⟩
        · exact ih tk1.2 tk2 h2 cls h3

lemma processModules_ok_each (c2m : List (String × List String)) (sb : String)
    (im : Bool) (rootSet : List String) (ms : List (String × OntGraph)) (k : Nat)
    (tk : List Triple × Nat)
    (h : processModules c2m sb im rootSet ms k = .ok tk) :
    ∀ m ∈ ms, ∃ k1 tk1, processModule c2m sb im rootSet m k1 = .ok tk1 := by
  induction ms generalizing k tk with
  | nil => simp
  | cons m2 rest ih =>
    simp only [processModules] at h
    cases h1 : processModule c2m sb im rootSet m2 k with
    | error e => rw [h1] at h; simp at h
    | ok tk1 =>
      rw [h1] at h
      simp only at h
      cases h2 : processModules c2m sb im rootSet rest tk1.2 with
      | error e => rw [h2] at h; simp at h
      | ok tk2 =>
        intro m3 hm3
        rcases List.mem_cons.mp hm3 with h3 | h3
        · subst h3
          exact ⟨k, tk1, h1⟩
        · exact ih tk1.2 tk2 h2 m3 h3

/-- C6.  A property segment that does not match the pattern raises the
grammar error carrying the owning class's full URI and the verbatim
(stripped) segment text; and a run that produced a shape graph at all
contains no such segment — equivalently, an input with a non-matching
segment in any described class of any module never yields an output graph
(there is no partial result). -/
theorem claim_C6_fatal_grammar :
    (∀ (propText classUri : String) (g : OntGraph) (shapeUri : Term)
      (c2m : List (String × List String)) (mn sb : String) (im : Bool)
      (uriNs litPfx : List (String × String)) (k : Nat),
      matchProp propText.toList = none →
      processProperty propText classUri g shapeUri c2m mn sb im uriNs litPfx k
        = .error (.invalidFormat classUri propText)) ∧
    (∀ (modules : List (String × OntGraph)) (im : Bool) (sbo : Option String)
      (k : Nat) (ts : List Triple),
      createShaclShapes modules im sbo k = .ok ts →
      ∀ m ∈ modules, ∀ pr ∈ descPairs m.2, ∀ seg ∈ segmentsOf pr.2,
        matchProp (pyStrip seg).toList ≠ none) := by
  constructor
  · intro propText classUri g shapeUri c2m mn sb im uriNs litPfx k hnone
    have hB : processPropertyB propText classUri g shapeUri c2m mn sb im uriNs
        litPfx (Term.cnode k) = .error (.invalidFormat classUri propText) := by
      simp only [processPropertyB, hnone]
    simp only [processProperty, hB]
  · intro modules im sbo k ts hok m hm pr hpr seg hseg
    simp only [createShaclShapes] at hok
    cases h1 : resolveShapesBase modules im sbo with
    | error e => rw [h1] at hok; simp at hok
    | ok sb =>
      rw [h1] at hok
      simp only at hok
      cases h2 : resolveRootClassUris modules (buildClassToModules modules) im with
      | error e => rw [h2] at hok; simp at hok
      | ok rootSet =>
        rw [h2] at hok
        simp only at hok
        cases h3 : processModules (buildClassToModules modules) sb im rootSet
            modules k with
        | error e => rw [h3] at hok; simp at hok
        | ok tk =>
          obtain ⟨k1, tk1, hmod⟩ := processModules_ok_each _ _ _ _ _ _ _ h3 m hm
          simp only [processModule] at hmod
          obtain ⟨hcls, d, hv, hds, hne, hmark⟩ := descPairs_mem m.2 pr hpr
          obtain ⟨k2, tk2, hclassok⟩ := processClasses_ok_each _ _ _ _ _ _ _ _ _ _ _
            hmod pr.1 hcls
          rw [← hds] at hne hmark
          obtain ⟨tk3, hsegs⟩ := processClass_ok_to_segs _ _ _ _ _ _ _ _ _ _ _ _
            hv hne hmark hclassok
          obtain ⟨k4, tk4, hprop⟩ := processSegs_ok_each _ _ _ _ _ _ _ _ _ _ _ _
            hsegs seg (by rw [hds]; exact hseg)
          exact processProperty_ok_match _ _ _ _ _ _ _ _ _ _ _ _ hprop

def gC6 : OntGraph :=
  { triples := [⟨.uri "http://ex.org/A", rdfTypeT, owlClassT⟩,
                ⟨.uri "http://ex.org/A", dcDescriptionT,
                 .lit "The properties that can be used:\n* ex:p -[1]-> rdfs:Literal"⟩],
    nsBind := [("ex", "http://ex.org/"),
               ("rdfs", "http://www.w3.org/2000/01/rdf-schema#")] }

/-- Witness for C6: the grammar error names the class and the verbatim
segment on a concrete bad segment, and a concrete successful run has only
pattern-matching segments. -/
theorem claim_C6_witness :
    processProperty "foaf:name INVALID FORMAT HERE" "http://ex.org/A" gC6
      (Term.uri "x") [] "m" "b" false [] [] 0
      = .error (.invalidFormat "http://ex.org/A" "foaf:name INVALID FORMAT HERE") ∧
    matchProp (pyStrip "ex:p -[1]-> rdfs:Literal").toList ≠ none := by
  constructor
  · exact claim_C6_fatal_grammar.1 "foaf:name INVALID FORMAT HERE"
      "http://ex.org/A" gC6 (Term.uri "x") [] "m" "b" false [] [] 0 (by decide)
  · exact claim_C6_fatal_grammar.2 [("test", gC6)] false
      (some "http://ex.org/shapes/") 0
      [⟨.uri "http://ex.org/shapes/AShape", rdfTypeT, shNodeShapeT⟩,
       ⟨.uri "http://ex.org/shapes/AShape", shTargetClassT, .uri "http://ex.org/A"⟩,
       ⟨.uri "http://ex.org/shapes/AShape", shPropertyT, .cnode 0⟩,
       ⟨.cnode 0, shPathT, .uri "http://ex.org/p"⟩,
       ⟨.cnode 0, shMinCountT, .intLit 1⟩,
       ⟨.cnode 0, shMaxCountT, .intLit 1⟩,
       ⟨.cnode 0, shNodeKindT, shLiteralT⟩]
      (by decide) ("test", gC6) (by decide)
      (Term.uri "http://ex.org/A",
       "The properties that can be used:\n* ex:p -[1]-> rdfs:Literal")
      (by decide) "ex:p -[1]-> rdfs:Literal" (by decide)

lemma lexLe_refl (l : List Char) : lexLe l l = true := by
  induction l with
  | nil => rfl
  | cons a as ih => simp only [lexLe, if_pos rfl]; exact ih

lemma lexLe_total (a b : List Char) : lexLe a b = true ∨ lexLe b a = true := by
  induction a generalizing b with
  | nil => left; rfl
  | cons x as ih =>
    cases b with
    | nil => right; rfl
    | cons y bs =>
      by_cases hxy : x = y
      · subst hxy
        rcases ih bs with h | h
        · left; simp only [lexLe, if_pos rfl]; exact h
        · right; simp only [lexLe, if_pos rfl]; exact h
      · rcases lt_or_gt_of_ne hxy with hlt | hgt
        · left
          simp only [lexLe, if_neg hxy]
          exact decide_eq_true hlt
        · right
          have hyx : y ≠ x := fun h2 => hxy h2.symm
          simp only [lexLe, if_neg hyx]
          exact decide_eq_true hgt

lemma lexLe_trans (a b c : List Char) (hab : lexLe a b = true)
    (hbc : lexLe b c = true) : lexLe a c = true := by
  induction a generalizing b c with
  | nil => rfl
  | cons x as ih =>
    cases b with
    | nil => simp [lexLe] at hab
    | cons y bs =>
      cases c with
      | nil => simp [lexLe] at hbc
      | cons z cs =>
        by_cases hxy : x = y
        · subst hxy
          simp only [lexLe, if_pos rfl] at hab
          by_cases hyz : x = z
          · subst hyz
            simp only [lexLe, if_pos rfl] at hbc ⊢
            exact ih bs cs hab hbc
          · simp only [lexLe, if_neg hyz] at hbc ⊢
            exact hbc
        · simp only [lexLe, if_neg hxy] at hab
          have hxy2 : x < y := of_decide_eq_true hab
          by_cases hyz : y = z
          · subst hyz
            simp only [lexLe, if_neg hxy]
            exact decide_eq_true hxy2
          · simp only [lexLe, if_neg hyz] at hbc
            have hyz2 : y < z := of_decide_eq_true hbc
            have hxz2 : x < z := lt_trans hxy2 hyz2
            simp only [lexLe, if_neg (ne_of_lt hxz2)]
            exact decide_eq_true hxz2

lemma strLe_refl (a : String) : strLe a a = true := lexLe_refl a.toList

lemma strLe_total (a b : String) : strLe a b = true ∨ strLe b a = true :=
  lexLe_total a.toList b.toList

lemma strLe_trans (a b c : String) (hab : strLe a b = true)
    (hbc : strLe b c = true) : strLe a c = true :=
  lexLe_trans a.toList b.toList c.toList hab hbc

lemma mem_insSorted (a x : String) (l : List String) :
    a ∈ insSorted x l ↔ a = x ∨ a ∈ l := by
  induction l with
  | nil => simp [insSorted]
  | cons y ys ih =>
    simp only [insSorted]
    split
    · simp only [List.mem_cons]
    · simp only [List.mem_cons, ih]
      tauto

/-- `sorted(...)[0]` is a member of the list and a lower bound for it. -/
lemma sortStr_head_min (l : List String) (m : String)
    (hm : (sortStr l).head? = some m) :
    m ∈ l ∧ ∀ y ∈ l, strLe m y = true := by
  induction l generalizing m with
  | nil => simp [sortStr] at hm
  | cons x xs ih =>
    simp only [sortStr] at hm
    cases hs : sortStr xs with
    | nil =>
      have hxs : xs = [] := by
        cases xs with
        | nil => rfl
        | cons a as => exact absurd hs (sortStr_ne_nil (a :: as) (by simp))
      rw [hs] at hm
      simp only [insSorted, List.head?_cons, Option.some.injEq] at hm
      subst hxs
      refine ⟨by rw [← hm]; exact List.mem_cons_self x [], ?_⟩
      intro y hy
      rw [← hm]
      rcases List.mem_cons.mp hy with h | h
      · subst h; exact strLe_refl y
      · exact absurd h (List.not_mem_nil y)
    | cons m0 rest =>
      obtain ⟨hm0mem, hm0min⟩ := ih m0 (by rw [hs]; rfl)
      rw [hs] at hm
      simp only [insSorted] at hm
      by_cases hx0 : strLe x m0 = true
      · rw [if_pos hx0] at hm
        simp only [List.head?_cons, Option.some.injEq] at hm
        refine ⟨by rw [← hm]; exact List.mem_cons_self x xs, ?_⟩
        intro y hy
        rw [← hm]
        rcases List.mem_cons.mp hy with h | h
        · subst h; exact strLe_refl y
        · exact strLe_trans x m0 y hx0 (hm0min y h)
      · rw [if_neg hx0] at hm
        simp only [List.head?_cons, Option.some.injEq] at hm
        refine ⟨by rw [← hm]; exact List.mem_cons_of_mem x hm0mem, ?_⟩
        intro y hy
        rw [← hm]
        rcases List.mem_cons.mp hy with h | h
        · subst h
          rcases strLe_total y m0 with h2 | h2
          · exact absurd h2 hx0
          · exact h2
        · exact hm0min y h

/-- A successful `_process_property` run ends with the classification
triple: the last triple added is exactly the `targetConstraint` output at
the resolved target tokens. -/
lemma processPropertyB_last (propText classUri : String) (g : OntGraph)
    (shapeUri : Term) (c2m : List (String × List String)) (mn sb : String)
    (im : Bool) (uriNs litPfx : List (String × String)) (b : Term)
    (ts : List Triple)
    (h : processPropertyB propText classUri g shapeUri c2m mn sb im uriNs litPfx b
      = .ok ts) :
    ∃ gps tgt lastT, matchProp propText.toList = some gps ∧
      resolveTargetTok gps.target classUri propText g uriNs litPfx = .ok tgt ∧
      targetConstraint b gps.target tgt.1 tgt.2 c2m mn sb im = .ok lastT ∧
      ts.getLast? = some lastT := by
  unfold processPropertyB at h
  cases hm : matchProp propText.toList with
  | none => rw [hm] at h; exact Except.noConfusion h
  | some gps =>
    rw [hm] at h
    simp only at h
    split at h
    · rename_i pp pl hsp
      cases hr : resolveNamespace pp pl g uriNs litPfx with
      | none => rw [hr] at h; exact Except.noConfusion h
      | some pns =>
        rw [hr] at h
        simp only at h
        cases ht : resolveTargetTok gps.target classUri propText g uriNs litPfx with
        | error e => rw [ht] at h; exact Except.noConfusion h
        | ok tgt =>
          rw [ht] at h
          simp only at h
          cases hc : targetConstraint b gps.target tgt.1 tgt.2 c2m mn sb im with
          | error e => rw [hc] at h; exact Except.noConfusion h
          | ok lastT =>
            rw [hc] at h
            simp only at h
            have hts : ts = [⟨shapeUri, shPropertyT, b⟩,
                ⟨b, shPathT, .uri (pns ++ pl)⟩] ++ cardTriples b gps ++ [lastT] :=
              (Except.ok.inj h).symm
            refine ⟨gps, tgt, lastT, rfl, ht, hc, ?_⟩
            rw [hts, List.getLast?_concat]
    · exact Except.noConfusion h

/-- C9.  (i) Whenever the resolved target is neither the literal marker nor
`xsd:`-prefixed and its full URI is a key of the global class-to-modules
index (with at least one owning module), the classification emits a
`sh:node` reference — never a bare `sh:nodeKind` marker — to the target
class's shape URI minted under the tie-broken module: the current module if
it owns the class, else the lexicographically least owning module; the
referenced URI coincides with `shapeUriFor` of the target class in that
module.  (ii) Every successful `_process_property` run ends with exactly
the classification triple produced this way. -/
theorem claim_C9_node_reference :
    (∀ (b : Term) (target tl tns : String) (c2m : List (String × List String))
      (mn sb : String) (im : Bool) (tmods : List String),
      target ≠ "rdfs:Literal" →
      "xsd:".toList.isPrefixOf target.toList = false →
      lookupC2M c2m (tns ++ tl) = some tmods →
      tmods ≠ [] →
      ∃ tmod,
        targetConstraint b target tl tns c2m mn sb im
          = .ok ⟨b, shNodeT,
              .uri ((if im then sb ++ tmod ++ "/" else sb) ++ tl ++ "Shape")⟩ ∧
        shNodeT ≠ shNodeKindT ∧
        tmod ∈ tmods ∧
        (tmods.contains mn = true → tmod = mn) ∧
        (tmods.contains mn = false → ∀ y ∈ tmods, strLe tmod y = true) ∧
        (getClassLocalName (tns ++ tl) = tl →
          Term.uri ((if im then sb ++ tmod ++ "/" else sb) ++ tl ++ "Shape")
            = shapeUriFor sb im tmod (tns ++ tl))) ∧
    (∀ (propText classUri : String) (g : OntGraph) (shapeUri : Term)
      (c2m : List (String × List String)) (mn sb : String) (im : Bool)
      (uriNs litPfx : List (String × String)) (b : Term) (ts : List Triple),
      processPropertyB propText classUri g shapeUri c2m mn sb im uriNs litPfx b
        = .ok ts →
      ∃ gps tgt lastT, matchProp propText.toList = some gps ∧
        resolveTargetTok gps.target classUri propText g uriNs litPfx = .ok tgt ∧
        targetConstraint b gps.target tgt.1 tgt.2 c2m mn sb im = .ok lastT ∧
        ts.getLast? = some lastT) := by
  constructor
  · intro b target tl tns c2m mn sb im tmods hlit hxsd hc2m hne
    have hx2 : ¬ ("xsd:".toList.isPrefixOf target.toList = true) := by
      rw [hxsd]; exact Bool.false_ne_true
    cases hct : tmods.contains mn with
    | true =>
      refine ⟨mn, ?_, by decide, List.elem_iff.mp hct, fun _ => rfl, ?_, ?_⟩
      · unfold targetConstraint
        rw [if_neg hlit, if_neg hx2, hc2m]
        simp only [hct, if_pos]
      · intro hf
        exact absurd hf (by decide)
      · intro hln
        simp [shapeUriFor, hln]
    | false =>
      cases hss : sortStr tmods with
      | nil => exact absurd hss (sortStr_ne_nil tmods hne)
      | cons m0 rest =>
        obtain ⟨hmem, hmin⟩ := sortStr_head_min tmods m0 (by rw [hss]; rfl)
        refine ⟨m0, ?_, by decide, hmem, ?_, fun _ => hmin, ?_⟩
        · unfold targetConstraint
          rw [if_neg hlit, if_neg hx2, hc2m]
          simp only [hct, Bool.false_eq_true, if_neg, hss, List.head?_cons,
            not_false_iff]
        · intro ht
          exact absurd ht (by decide)
        · intro hln
          simp [shapeUriFor, hln]
  · exact processPropertyB_last

def gC9 : OntGraph := { triples := [], nsBind := [("ex", "http://ex.org/")] }

def tsC9 : List Triple :=
  [⟨.uri "s", shPropertyT, .cnode 0⟩,
   ⟨.cnode 0, shPathT, .uri "http://ex.org/p"⟩,
   ⟨.cnode 0, shMinCountT, .intLit 1⟩,
   ⟨.cnode 0, shMaxCountT, .intLit 1⟩,
   ⟨.cnode 0, shNodeT, .uri "S/alpha/BShape"⟩]

/-- Witness for C9 at a class owned by modules beta and alpha while the
current module is gamma: the reference is minted under alpha, and a
concrete `_process_property` run ends with exactly that triple. -/
theorem claim_C9_witness :
    (∃ tmod, targetConstraint (.cnode 0) "ex:B" "B" "http://ex.org/"
        [("http://ex.org/B", ["beta", "alpha"])] "gamma" "S/" true
        = .ok ⟨.cnode 0, shNodeT, .uri ("S/" ++ tmod ++ "/" ++ "B" ++ "Shape")⟩ ∧
        tmod ∈ ["beta", "alpha"]) ∧
    (∃ gps tgt lastT,
        matchProp "ex:p -[1]-> ex:B".toList = some gps ∧
        resolveTargetTok gps.target "http://ex.org/A" "ex:p -[1]-> ex:B" gC9 [] []
          = .ok tgt ∧
        targetConstraint (.cnode 0) gps.target tgt.1 tgt.2
          [("http://ex.org/B", ["beta", "alpha"])] "gamma" "S/" true
          = .ok lastT ∧
        tsC9.getLast? = some lastT) := by
  constructor
  · obtain ⟨tmod, h1, h2, h3, h4, h5, h6⟩ :=
      claim_C9_node_reference.1 (.cnode 0) "ex:B" "B" "http://ex.org/"
        [("http://ex.org/B", ["beta", "alpha"])] "gamma" "S/" true
        ["beta", "alpha"] (by decide) (by decide) (by decide) (by decide)
    exact ⟨tmod, h1, h3⟩
  · exact claim_C9_node_reference.2 "ex:p -[1]-> ex:B" "http://ex.org/A" gC9
      (.uri "s") [("http://ex.org/B", ["beta", "alpha"])] "gamma" "S/" true [] []
      (.cnode 0) tsC9 (by decide)

lemma cshiftT_uri (d : Nat) (s : String) : cshiftT d (.uri s) = .uri s := rfl

lemma cshiftT_cnode (d n : Nat) : cshiftT d (.cnode n) = .cnode (n + d) := rfl

lemma cshiftT_free (d : Nat) (t : Term) (h : cnodeFreeT t = true) :
    cshiftT d t = t := by
  cases t with
  | cnode n => simp [cnodeFreeT] at h
  | uri s => rfl
  | lit s => rfl
  | bnode s => rfl
  | intLit n => rfl

lemma mem_dedupFirstAux {α : Type} [DecidableEq α] (seen l : List α) (c : α)
    (h : c ∈ dedupFirstAux seen l) : c ∈ l := by
  induction l generalizing seen with
  | nil => simp [dedupFirstAux] at h
  | cons x xs ih =>
    simp only [dedupFirstAux] at h
    split at h
    · exact List.mem_cons_of_mem x (ih _ h)
    · rcases List.mem_cons.mp h with h2 | h2
      · exact List.mem_cons.mpr (Or.inl h2)
      · exact List.mem_cons_of_mem x (ih _ h2)

lemma subjectsOfType_cnodeFree (g : OntGraph) (ty : Term)
    (hg : cnodeFreeG g = true) :
    ∀ c ∈ subjectsOfType g ty, cnodeFreeT c = true := by
  intro c hc
  unfold subjectsOfType dedupFirst at hc
  have hc2 := mem_dedupFirstAux _ _ _ hc
  rw [List.mem_map] at hc2
  obtain ⟨t, ht, hts⟩ := hc2
  have ht2 : t ∈ g.triples := (List.mem_filter.mp ht).1
  have hall := List.all_eq_true.mp hg t ht2
  rw [← hts]
  exact (Bool.and_eq_true_iff.mp (Bool.and_eq_true_iff.mp hall).1).1

lemma targetConstraint_shift (d k : Nat) (target tl tns : String)
    (c2m : List (String × List String)) (mn sb : String) (im : Bool) :
    targetConstraint (.cnode (k + d)) target tl tns c2m mn sb im
      = (targetConstraint (.cnode k) target tl tns c2m mn sb im).map (cshiftTr d) := by
  unfold targetConstraint
  repeat' split
  all_goals rfl

lemma cardTriples_shift (d k : Nat) (gps : PropGroups) :
    cardTriples (.cnode (k + d)) gps
      = (cardTriples (.cnode k) gps).map (cshiftTr d) := by
  unfold cardTriples
  repeat' split
  all_goals rfl

lemma processPropertyB_shift (d k : Nat) (propText classUri : String)
    (g : OntGraph) (shapeUri : Term) (hsu : cshiftT d shapeUri = shapeUri)
    (c2m : List (String × List String)) (mn sb : String) (im : Bool)
    (uriNs litPfx : List (String × String)) :
    processPropertyB propText classUri g shapeUri c2m mn sb im uriNs litPfx
        (.cnode (k + d))
      = (processPropertyB propText classUri g shapeUri c2m mn sb im uriNs litPfx
          (.cnode k)).map (List.map (cshiftTr d)) := by
  unfold processPropertyB
  split
  · rfl
  · rename_i gps hgps
    split
    · rename_i pp pl hsp
      split
      · rfl
      · rename_i pns hpns
        split
        · rfl
        · rename_i tgt htgt
          cases htc : targetConstraint (Term.cnode k) gps.target tgt.1 tgt.2
              c2m mn sb im with
          | error e =>
            have h2 : targetConstraint (Term.cnode (k + d)) gps.target tgt.1
                tgt.2 c2m mn sb im = .error e := by
              rw [targetConstraint_shift, htc]; rfl
            rw [h2]
            rfl
          | ok lastT =>
            have h2 : targetConstraint (Term.cnode (k + d)) gps.target tgt.1
                tgt.2 c2m mn sb im = .ok (cshiftTr d lastT) := by
              rw [targetConstraint_shift, htc]; rfl
            rw [h2, cardTriples_shift]
            simp only [Except.map, List.map_append, List.map_cons, List.map_nil,
              cshiftTr, cshiftT_uri, cshiftT_cnode, shPropertyT, shPathT, hsu]
    · rfl

lemma processProperty_shift (d : Nat) (propText classUri : String) (g : OntGraph)
    (shapeUri : Term) (hsu : cshiftT d shapeUri = shapeUri)
    (c2m : List (String × List String)) (mn sb : String) (im : Bool)
    (uriNs litPfx : List (String × String)) (k : Nat) :
    processProperty propText classUri g shapeUri c2m mn sb im uriNs litPfx (k + d)
      = (processProperty propText classUri g shapeUri c2m mn sb im uriNs litPfx
          k).map (fun tk => (tk.1.map (cshiftTr d), tk.2 + d)) := by
  unfold processProperty
  rw [processPropertyB_shift d k propText classUri g shapeUri hsu c2m mn sb im
    uriNs litPfx]
  cases processPropertyB propText classUri g shapeUri c2m mn sb im uriNs litPfx
      (.cnode k) with
  | error e => rfl
  | ok ts =>
    simp only [Except.map]
    rw [Nat.add_right_comm]

lemma processSegs_shift (d : Nat) (classUri : String) (g : OntGraph)
    (shapeUri : Term) (hsu : cshiftT d shapeUri = shapeUri)
    (c2m : List (String × List String)) (mn sb : String) (im : Bool)
    (uriNs litPfx : List (String × String)) (segs : List String) (k : Nat) :
    processSegs classUri g shapeUri c2m mn sb im uriNs litPfx segs (k + d)
      = (processSegs classUri g shapeUri c2m mn sb im uriNs litPfx segs k).map
          (fun tk => (tk.1.map (cshiftTr d), tk.2 + d)) := by
  induction segs generalizing k with
  | nil => rfl
  | cons s rest ih =>
    simp only [processSegs]
    rw [processProperty_shift d _ _ _ _ hsu]
    cases processProperty (pyStrip s) classUri g shapeUri c2m mn sb im uriNs
        litPfx k with
    | error e => rfl
    | ok tk =>
      simp only [Except.map]
      rw [ih tk.2]
      cases processSegs classUri g shapeUri c2m mn sb im uriNs litPfx rest
          tk.2 with
      | error e => rfl
      | ok tk2 =>
        simp only [Except.map, List.map_append]

lemma processClass_shift (d : Nat) (g : OntGraph) (cls : Term)
    (hcls : cshiftT d cls = cls)
    (c2m : List (String × List String)) (mn sb : String) (im : Bool)
    (uriNs litPfx : List (String × String)) (rootSet : List String) (k : Nat) :
    processClass g cls c2m mn sb im uriNs litPfx rootSet (k + d)
      = (processClass g cls c2m mn sb im uriNs litPfx rootSet k).map
          (fun tk => (tk.1.map (cshiftTr d), tk.2 + d)) := by
  simp only [processClass]
  split
  · rfl
  · rename_i desc hdesc
    split
    · rfl
    · split
      · rfl
      · rw [processSegs_shift d _ _ _ rfl]
        cases processSegs (termStr cls) g (shapeUriFor sb im mn (termStr cls))
            c2m mn sb im uriNs litPfx (segmentsOf (termStr desc)) k with
        | error e => rfl
        | ok tk =>
          simp only [Except.map, List.map_append, List.map_cons, List.map_nil,
            apply_ite (List.map (cshiftTr d)), cshiftTr, cshiftT_uri,
            shapeUriFor, rdfTypeT, shNodeShapeT, shTargetClassT, hcls]

lemma processClasses_shift (d : Nat) (g : OntGraph)
    (c2m : List (String × List String)) (mn sb : String) (im : Bool)
    (uriNs litPfx : List (String × String)) (rootSet : List String)
    (clsList : List Term) (hcl : ∀ c ∈ clsList, cshiftT d c = c) (k : Nat) :
    processClasses g c2m mn sb im uriNs litPfx rootSet clsList (k + d)
      = (processClasses g c2m mn sb im uriNs litPfx rootSet clsList k).map
          (fun tk => (tk.1.map (cshiftTr d), tk.2 + d)) := by
  induction clsList generalizing k with
  | nil => rfl
  | cons c cs ih =>
    simp only [processClasses]
    rw [processClass_shift d g c (hcl c (List.mem_cons_self c cs))]
    cases processClass g c c2m mn sb im uriNs litPfx rootSet k with
    | error e => rfl
    | ok tk =>
      simp only [Except.map]
      rw [ih (fun c2 hc2 => hcl c2 (List.mem_cons_of_mem c hc2)) tk.2]
      cases processClasses g c2m mn sb im uriNs litPfx rootSet cs tk.2 with
      | error e => rfl
      | ok tk2 =>
        simp only [Except.map, List.map_append]

lemma processModule_shift (d : Nat) (c2m : List (String × List String))
    (sb : String) (im : Bool) (rootSet : List String) (m : String × OntGraph)
    (hm : cnodeFreeG m.2 = true) (k : Nat) :
    processModule c2m sb im rootSet m (k + d)
      = (processModule c2m sb im rootSet m k).map
          (fun tk => (tk.1.map (cshiftTr d), tk.2 + d)) := by
  unfold processModule
  exact processClasses_shift d m.2 c2m m.1 sb im (buildUriNsMap m.2)
    (extractPfxFromLits m.2) rootSet (subjectsOfType m.2 owlClassT)
    (fun c hc => cshiftT_free d c (subjectsOfType_cnodeFree m.2 owlClassT hm c hc)) k

lemma processModules_shift (d : Nat) (c2m : List (String × List String))
    (sb : String) (im : Bool) (rootSet : List String)
    (ms : List (String × OntGraph)) (hms : ∀ m ∈ ms, cnodeFreeG m.2 = true)
    (k : Nat) :
    processModules c2m sb im rootSet ms (k + d)
      = (processModules c2m sb im rootSet ms k).map
          (fun tk => (tk.1.map (cshiftTr d), tk.2 + d)) := by
  induction ms generalizing k with
  | nil => rfl
  | cons m rest ih =>
    simp only [processModules]
    rw [processModule_shift d c2m sb im rootSet m (hms m (List.mem_cons_self m rest))]
    cases processModule c2m sb im rootSet m k with
    | error e => rfl
    | ok tk =>
      simp only [Except.map]
      rw [ih (fun m2 hm2 => hms m2 (List.mem_cons_of_mem m hm2)) tk.2]
      cases processModules c2m sb im rootSet rest tk.2 with
      | error e => rfl
      | ok tk2 =>
        simp only [Except.map, List.map_append]

/-- C8.  The pipeline is deterministic given the blank-node counter, and the
counter only renames minted blank nodes: a run started at counter `k + d`
produces exactly the `cshiftTr d`-renamed triples of the run started at `k`
(and the identical error when the run fails), provided no module graph
already contains an extractor-minted node — true of every parsed input.
Hence two compilations of the same source with the same base differ only by
the injective blank-node renaming `n ↦ n + d`: the shape graphs are
triple-set-identical up to blank-node renaming. -/
theorem claim_C8_idempotence
    (modules : List (String × OntGraph)) (im : Bool) (sbo : Option String)
    (k d : Nat) (hfree : ∀ m ∈ modules, cnodeFreeG m.2 = true) :
    createShaclShapes modules im sbo (k + d)
      = (createShaclShapes modules im sbo k).map (List.map (cshiftTr d)) := by
  simp only [createShaclShapes]
  cases resolveShapesBase modules im sbo with
  | error e => rfl
  | ok sb =>
    simp only
    cases resolveRootClassUris modules (buildClassToModules modules) im with
    | error e => rfl
    | ok rootSet =>
      simp only
      rw [processModules_shift d (buildClassToModules modules) sb im rootSet
        modules hfree k]
      cases processModules (buildClassToModules modules) sb im rootSet modules
          k with
      | error e => rfl
      | ok tk => rfl

/-- A module whose graph holds two distinct class URIs sharing the
local-name suffix `B` (exercising the last-wins suffix map) plus one
described class. -/
def gC8 : OntGraph :=
  { triples := [⟨.uri "http://ex.org/A", rdfTypeT, owlClassT⟩,
                ⟨.uri "http://ex.org/A", dcDescriptionT,
                 .lit "The properties that can be used:\n* ex:p -[1..N]-> rdfs:Literal"⟩,
                ⟨.uri "http://ex.org/B", rdfTypeT, owlClassT⟩,
                ⟨.uri "http://other.org/B", rdfTypeT, owlClassT⟩],
    nsBind := [("ex", "http://ex.org/")] }

/-- Witness for C8: a concrete single-module source (with two URIs sharing
a local-name suffix) whose two runs at counters 0 and 5 agree up to the
blank-node shift. -/
theorem claim_C8_witness :
    (∀ m ∈ [("m", gC8)], cnodeFreeG m.2 = true) ∧
    createShaclShapes [("m", gC8)] false (some "http://s/") (0 + 5)
      = (createShaclShapes [("m", gC8)] false (some "http://s/") 0).map
          (List.map (cshiftTr 5)) :=
  ⟨by decide,
   claim_C8_idempotence [("m", gC8)] false (some "http://s/") 0 5 (by decide)⟩

end ShaclExtractor
